import Mathlib

/-!
Verification development for the dotbot-js link reconciliation engine.

The development shallowly embeds the TypeScript source:
* a lexical model of Node's `path` module (`normalize`, `join`, `resolve`,
  `dirname`, `basename`, `relative`) on POSIX-style strings;
* a filesystem model: a finite association list from absolute normalised
  paths to entries (regular file with device/inode identity, directory,
  symbolic link with a literal recorded target);
* the `Link` plugin (`_processLinks`, `_delete`, `_link`, `_create`,
  `_createGlobResults`, path expansion helpers);
* the `Context` (base directory, defaults, dry-run flag) and the
  `Dispatcher.dispatch` loop.

Modelling conventions: the platform is POSIX (`normslash` is the identity,
`sep = "/"`); external shell tests and the external glob library are
parameters (pure functions supplied by the environment); symbolic links are
followed only at the final component of a path, with a fuel bound of 40
steps standing in for the kernel's ELOOP limit; directories carry no inode
numbers, so the model compares directories by resolved path where the code
compares `stat` identity.
-/

namespace Dotbot

/-! ### Lexical path model (Node `path`, POSIX flavour) -/

/-- Split a character list at `/` boundaries. -/
def splitSlashAux : List Char → List Char → List (List Char)
  | [], cur => [cur.reverse]
  | '/' :: rest, cur => cur.reverse :: splitSlashAux rest []
  | c :: rest, cur => splitSlashAux rest (c :: cur)

/-- Split a path string into its slash-separated segments, dropping
empty segments (repeated or trailing slashes). -/
def pathSegs (s : String) : List String :=
  ((splitSlashAux s.data []).map String.mk).filter (fun x => x ≠ "")

/-- `s` starts with `pre` (kernel-reducible form of `startsWith`). -/
def strStarts (s pre : String) : Bool :=
  pre.data.isPrefixOf s.data

/-- `s` ends with `suf` (kernel-reducible form of `endsWith`). -/
def strEnds (s suf : String) : Bool :=
  suf.data.isSuffixOf s.data

/-- Drop the first `n` characters (kernel-reducible form of `drop`). -/
def strDrop (s : String) (n : Nat) : String :=
  String.mk (s.data.drop n)

/-- Process `.` and `..` segments the way `path.normalize` does.
`abs` tells whether the path is absolute (a leading `..` is dropped at
the root of an absolute path but kept for a relative one). -/
def normSegsAux (abs : Bool) : List String → List String → List String
  | acc, [] => acc.reverse
  | acc, "." :: rest => normSegsAux abs acc rest
  | acc, ".." :: rest =>
    match acc with
    | [] => if abs then normSegsAux abs [] rest else normSegsAux abs [".."] rest
    | ".." :: _ => normSegsAux abs (".." :: acc) rest
    | _ :: tl => normSegsAux abs tl rest
  | acc, seg :: rest => normSegsAux abs (seg :: acc) rest

/-- Join segments back into a path string. -/
def joinSegs : List String → String
  | [] => ""
  | [s] => s
  | s :: rest => s ++ "/" ++ joinSegs rest

/-- `path.normalize` (POSIX): resolve `.`/`..` lexically, collapse
slashes.  An empty relative result is `"."`; an empty absolute result
is `"/"`. -/
def nodeNormalize (p : String) : String :=
  let abs := strStarts p "/"
  let segs := normSegsAux abs [] (pathSegs p)
  if abs then "/" ++ joinSegs segs
  else if segs = [] then "." else joinSegs segs

/-- `path.join(a, b)` (POSIX): concatenate with a separator, then
normalize.  Unlike Python's `os.path.join`, an absolute second argument
does not restart the path. -/
def nodeJoin (a b : String) : String :=
  if a = "" ∧ b = "" then "."
  else if a = "" then nodeNormalize b
  else if b = "" then nodeNormalize a
  else nodeNormalize (a ++ "/" ++ b)

/-- `path.resolve(p)` with an explicit working directory: lexical
normalisation only — it never consults the filesystem and never follows
symbolic links. -/
def nodeResolve (cwd p : String) : String :=
  if strStarts p "/" then nodeNormalize p else nodeNormalize (cwd ++ "/" ++ p)

/-- `path.dirname` (POSIX). -/
def dirname (p : String) : String :=
  let abs := strStarts p "/"
  let segs := pathSegs p
  if abs then
    if segs.length ≤ 1 then "/" else "/" ++ joinSegs segs.dropLast
  else
    if segs.length ≤ 1 then "." else joinSegs segs.dropLast

/-- `path.basename` (POSIX). -/
def pathBasename (p : String) : String :=
  match (pathSegs p).getLast? with
  | some s => s
  | none => ""

/-- Longest common prefix of two segment lists. -/
def commonSegs : List String → List String → List String
  | a :: as, b :: bs => if a = b then a :: commonSegs as bs else []
  | _, _ => []

/-- `path.relative(from, to)` (POSIX), with an explicit working
directory used to resolve both arguments. -/
def nodeRelative (cwd f t : String) : String :=
  let fsegs := pathSegs (nodeResolve cwd f)
  let tsegs := pathSegs (nodeResolve cwd t)
  let c := (commonSegs fsegs tsegs).length
  let ups := List.replicate (fsegs.length - c) ".."
  joinSegs (ups ++ tsegs.drop c)

/-! ### Filesystem model -/

/-- A filesystem entry: a regular file carries a device and inode
identity, a directory is bare, a symbolic link records its literal
target string exactly as written. -/
inductive FSEntry where
  | file (dev ino : Nat)
  | dir
  | symlink (target : String)
deriving DecidableEq, Repr

/-- A filesystem state: a finite association list from absolute
normalised paths to entries (first binding wins). -/
abbrev FS := List (String × FSEntry)

/-- Look up the entry recorded at a path key. -/
def lookupFS (fs : FS) (p : String) : Option FSEntry :=
  match fs with
  | [] => none
  | (k, e) :: rest => if k = p then some e else lookupFS rest p

/-- Remove the binding at a path key (`unlinkSync` / `rmSync` on a
non-directory). -/
def eraseKey (fs : FS) (p : String) : FS :=
  fs.filter (fun kv => kv.1 ≠ p)

/-- Remove a path and everything below it (`rmSync` with
`recursive: true`). -/
def removeTree (fs : FS) (p : String) : FS :=
  fs.filter (fun kv => kv.1 ≠ p ∧ ¬ strStarts kv.1 (p ++ "/"))

/-- Add a binding at a path key. -/
def insertFS (fs : FS) (p : String) (e : FSEntry) : FS :=
  (p, e) :: fs

/-- ELOOP-style fuel bound on symbolic-link chains. -/
def linkFuel : Nat := 40

/-- Follow symbolic links at the final component of a resolved path,
returning the final path and its non-symlink entry (`statSync`
semantics).  A symlink target is interpreted relative to the link's
directory.  Running out of fuel models ELOOP; a missing binding models
ENOENT. -/
def resolveChain (fs : FS) : Nat → String → Option (String × FSEntry)
  | 0, _ => none
  | fuel + 1, p =>
    match lookupFS fs p with
    | some (.symlink t) => resolveChain fs fuel (nodeResolve (dirname p) t)
    | some e => some (p, e)
    | none => none

/-! ### Environment and path expansion (`_expandVars`, `_expandPath`) -/

/-- Characters a `$VAR` name may contain (`[A-Za-z0-9_]`). -/
def isVarChar (c : Char) : Bool :=
  ('A' ≤ c ∧ c ≤ 'Z') ∨ ('a' ≤ c ∧ c ≤ 'z') ∨ ('0' ≤ c ∧ c ≤ '9') ∨ c = '_'

/-- Take the longest run of variable-name characters. -/
def spanVar : List Char → List Char × List Char
  | [] => ([], [])
  | c :: cs =>
    if isVarChar c then
      let r := spanVar cs
      (c :: r.1, r.2)
    else ([], c :: cs)

theorem spanVar_len_add (cs : List Char) :
    (spanVar cs).1.length + (spanVar cs).2.length = cs.length := by
  induction cs with
  | nil => simp [spanVar]
  | cons c cs ih =>
    by_cases h : isVarChar c = true <;> simp [spanVar, h] <;> omega

/-- Consume an optional closing brace after a variable name (the
regex's trailing `\}?`). -/
def dropBrace : List Char → List Char
  | '}' :: r => r
  | r => r

theorem dropBrace_len (cs : List Char) : (dropBrace cs).length ≤ cs.length := by
  unfold dropBrace; split <;> simp

/-- Look up an environment variable; `process.env[v] || ""` yields the
empty string both for an unset and an empty variable. -/
def envGet (env : List (String × String)) (v : String) : String :=
  match env.find? (fun kv => kv.1 = v) with
  | some kv => kv.2
  | none => ""

/-- `_expandVars` on the character list: replace each occurrence of the
pattern `\$\{?([A-Za-z0-9_]+)\}?` by the variable's value (both braces
are optional and independent, exactly as in the source regex); where
the pattern fails to match, scanning resumes at the next character.
The fuel argument makes the recursion structural (hence reducible by
the kernel); every step consumes at least one character, so fuel equal
to the list length never runs out. -/
def expandVarsFuel (env : List (String × String)) : Nat → List Char → List Char
  | 0, cs => cs
  | _ + 1, [] => []
  | f + 1, '$' :: '{' :: r1 =>
    match spanVar r1 with
    | ([], _) => '$' :: expandVarsFuel env f ('{' :: r1)
    | (c :: v, r2) =>
      (envGet env (String.mk (c :: v))).data ++ expandVarsFuel env f (dropBrace r2)
  | f + 1, '$' :: r1 =>
    match spanVar r1 with
    | ([], _) => '$' :: expandVarsFuel env f r1
    | (c :: v, r2) =>
      (envGet env (String.mk (c :: v))).data ++ expandVarsFuel env f (dropBrace r2)
  | f + 1, c :: rest => c :: expandVarsFuel env f rest

/-- `_expandVars`. -/
def expandVars (env : List (String × String)) (s : String) : String :=
  String.mk (expandVarsFuel env s.data.length s.data)

/-- The ambient system configuration of a run: working directory, home
directory, environment variables, the outcome of shell conditional
tests (`if:` directives run through `shellCommand`), and the raw
results of the external `fast-glob` library. -/
structure Sys where
  cwd : String
  home : String
  env : List (String × String)
  shellOk : String → Bool
  rawGlob : String → List String

/-- `_expandPath`: expand environment variables, then a leading `~`. -/
def expandPath (sys : Sys) (path : String) : String :=
  let expanded := expandVars sys.env path
  if strStarts expanded "~" then sys.home ++ strDrop expanded 1 else expanded

/-- `normslash` on POSIX is the identity (the Windows branch converts
forward slashes to backslashes). -/
def normslash (p : String) : String := p

/-! ### Context -/

/-- The run context a plugin sees: configured base directory and the
dry-run flag. -/
structure Ctx where
  base : String
  dryRun : Bool

/-- `Context.baseDirectory(canonicalPath = true)`: the source calls
`resolve(this._baseDirectory)` when `canonicalPath` is true (a lexical
operation), and returns the stored string otherwise. -/
def baseDirectory (sys : Sys) (ctx : Ctx) (canonicalPath : Bool := true) : String :=
  if canonicalPath then nodeResolve sys.cwd ctx.base else ctx.base

/-! ### Filesystem predicates used by the Link plugin -/

/-- The filesystem key a path denotes: expand, then resolve against the
working directory (how every `fs` syscall receives the path). -/
def keyOf (sys : Sys) (p : String) : String :=
  nodeResolve sys.cwd (expandPath sys p)

/-- `_exists` (`existsSync`): follows symbolic links. -/
def existsFS (sys : Sys) (fs : FS) (p : String) : Bool :=
  (resolveChain fs linkFuel (keyOf sys p)).isSome

/-- `_lexists` (`lstatSync` succeeding): does not follow the final
symbolic link, so a broken link still exists. -/
def lexistsFS (sys : Sys) (fs : FS) (p : String) : Bool :=
  (lookupFS fs (keyOf sys p)).isSome

/-- `_isLink` (`lstatSync(...).isSymbolicLink()`). -/
def isLinkFS (sys : Sys) (fs : FS) (p : String) : Bool :=
  match lookupFS fs (keyOf sys p) with
  | some (.symlink _) => true
  | _ => false

/-- `_linkTarget` (`readlinkSync`): the literal recorded target.  The
Windows `\\?\`-stripping branch is dead on POSIX. -/
def linkTargetFS (sys : Sys) (fs : FS) (p : String) : Option String :=
  match lookupFS fs (keyOf sys p) with
  | some (.symlink t) => some t
  | _ => none

/-- The chain of ancestor keys of an absolute normalised key, shortest
first: for `/a/b/c` the list `[/a, /a/b, /a/b/c]`. -/
def ancestorKeys (key : String) : List String :=
  ((pathSegs key).foldl
    (fun (st : String × List String) seg =>
      let nxt := st.1 ++ "/" ++ seg
      (nxt, st.2 ++ [nxt]))
    ("", [])).2

/-- `mkdirSync(p, { recursive: true })`: create every missing ancestor
as a directory; fail if a non-directory already occupies one of them
(following symbolic links, as the kernel does). -/
def mkdirs (fs : FS) (key : String) : Option FS :=
  (ancestorKeys key).foldl
    (fun acc k =>
      match acc with
      | none => none
      | some fs' =>
        match resolveChain fs' linkFuel k with
        | some (_, .dir) => some fs'
        | some _ => none
        | none =>
          match lookupFS fs' k with
          | some _ => none
          | none => some (insertFS fs' k .dir))
    (some fs)

/-! ### Link plugin: options and payload -/

/-- The `LinkOptions` interface: every field optional, `none` meaning
absent.  `canonicalizePathLegacy` models the `"canonicalize-path"`
legacy key, `pfx` the `prefix` key, `ifTest` the `if` key,
`ignoreMissing` the `"ignore-missing"` key. -/
structure LinkOptions where
  path : Option String := none
  type : Option String := none
  force : Option Bool := none
  relink : Option Bool := none
  create : Option Bool := none
  relative : Option Bool := none
  canonicalize : Option Bool := none
  canonicalizePathLegacy : Option Bool := none
  glob : Option Bool := none
  pfx : Option String := none
  ifTest : Option String := none
  ignoreMissing : Option Bool := none
  exclude : Option (List String) := none

/-- The value of one `link` payload entry: either a bare target (a
string, or null/undefined) or an extended option object. -/
inductive LinkTarget where
  | bare (target : Option String)
  | ext (opts : LinkOptions)

/-- `_defaultTarget`: a null target defaults to the link name's
basename with a leading dot stripped. -/
def defaultTarget (linkName : String) (target : Option String) : String :=
  match target with
  | none =>
    let base := pathBasename linkName
    if strStarts base "." then strDrop base 1 else base
  | some t => t

/-- The fully resolved per-entry options (the loop locals of
`_processLinks`, lines 75–114). -/
structure REntry where
  relative : Bool
  canonicalPath : Bool
  linkType : String
  force : Bool
  relink : Bool
  create : Bool
  useGlob : Bool
  basePfx : String
  test : Option String
  ignoreMissing : Bool
  excludePaths : List String
  path : String
deriving DecidableEq, Repr

/-- Resolve the option precedence (per-entry value over directive-level
defaults over built-ins).  `none` models the `continue` taken when an
extended entry carries an unrecognised link type. -/
def resolveOpts (defaults : LinkOptions) (expandedLinkName : String)
    (target : LinkTarget) : Option REntry :=
  let r0 : REntry :=
    { relative := defaults.relative = some true
      canonicalPath := (defaults.canonicalize.getD
        (defaults.canonicalizePathLegacy.getD true))
      linkType := defaults.type.getD "symlink"
      force := defaults.force = some true
      relink := defaults.relink = some true
      create := defaults.create = some true
      useGlob := defaults.glob = some true
      basePfx := defaults.pfx.getD ""
      test := defaults.ifTest
      ignoreMissing := defaults.ignoreMissing = some true
      excludePaths := defaults.exclude.getD []
      path := "" }
  match target with
  | .ext opts =>
    let typeOk : Option String :=
      match opts.type with
      | some t => if t ≠ "symlink" ∧ t ≠ "hardlink" then none else some t
      | none => some r0.linkType
    match typeOk with
    | none => none
    | some lt =>
      some { r0 with
        test := opts.ifTest.orElse (fun _ => r0.test)
        relative := opts.relative.getD r0.relative
        canonicalPath := opts.canonicalize.getD
          (opts.canonicalizePathLegacy.getD r0.canonicalPath)
        linkType := lt
        force := opts.force.getD r0.force
        relink := opts.relink.getD r0.relink
        create := opts.create.getD r0.create
        useGlob := opts.glob.getD r0.useGlob
        basePfx := opts.pfx.getD r0.basePfx
        ignoreMissing := opts.ignoreMissing.getD r0.ignoreMissing
        excludePaths := opts.exclude.getD r0.excludePaths
        path := defaultTarget expandedLinkName opts.path }
  | .bare t => some { r0 with path := defaultTarget expandedLinkName t }

/-! ### Link plugin: glob expansion -/

/-- `_hasGlobChars`: the regex `[?*\[]`. -/
def hasGlobChars (path : String) : Bool :=
  path.data.any (fun c => c = '?' ∨ c = '*' ∨ c = '[')

/-- Whether a pattern contains the recursive marker `**`. -/
def hasDoubleStar : List Char → Bool
  | '*' :: '*' :: _ => true
  | _ :: rest => hasDoubleStar rest
  | [] => false

/-- `statSync(p).isFile()` (following symbolic links). -/
def isFileFS (sys : Sys) (fs : FS) (p : String) : Bool :=
  match resolveChain fs linkFuel (nodeResolve sys.cwd p) with
  | some (_, .file _ _) => true
  | _ => false

/-- `_glob`: run the external glob library, normalise every match, and
for a recursive (`**`) pattern not ending in the separator keep only
regular files. -/
def globExpand (sys : Sys) (fs : FS) (pattern : String) : List String :=
  let found := (sys.rawGlob pattern).map nodeNormalize
  if hasDoubleStar pattern.data ∧ ¬ strEnds pattern "/" then
    found.filter (isFileFS sys fs)
  else found

/-- `_createGlobResults`: expand the destination pattern, expand every
exclude pattern the same way, and drop any match contained in the
union of the exclude expansions (exact string equality, via a `Set`). -/
def createGlobResults (sys : Sys) (fs : FS) (pattern : String)
    (excludePatterns : List String) : List String :=
  let included := globExpand sys fs pattern
  let excluded := excludePatterns.foldl
    (fun acc expat => acc ++ globExpand sys fs expat) []
  included.filter (fun item => ¬ item ∈ excluded)

/-- Longest common character prefix of two strings. -/
def commonPfxChars : List Char → List Char → List Char
  | a :: as, b :: bs => if a = b then a :: commonPfxChars as bs else []
  | _, _ => []

/-- Insert into a sorted list of strings (lexicographic order). -/
def insertSorted (x : String) : List String → List String
  | [] => [x]
  | y :: ys => if x ≤ y then x :: y :: ys else y :: insertSorted x ys

/-- Sort strings lexicographically (`[...paths].sort()`). -/
def sortStrings : List String → List String
  | [] => []
  | x :: xs => insertSorted x (sortStrings xs)

/-- `_commonPrefix`: sort the list and compare first against last
character by character. -/
def commonPfx (paths : List String) : String :=
  match paths with
  | [] => ""
  | [p] => p
  | _ =>
    let sorted := sortStrings paths
    match sorted, sorted.getLast? with
    | f :: _, some l => String.mk (commonPfxChars f.data l.data)
    | _, _ => ""

/-! ### Link plugin: the three mutation steps -/

/-- `_relativePath(target, linkName)`:
`relative(dirname(linkName), target)`. -/
def relativePath (sys : Sys) (target linkName : String) : String :=
  nodeRelative sys.cwd (dirname linkName) target

/-- A filesystem mutation actually performed (never recorded during a
dry-run): the observable footprint of one engine invocation. -/
inductive Mut where
  | mkdirp (path : String)
  | removed (path : String)
  | removedTree (path : String)
  | madeSymlink (path target : String)
  | madeHardlink (path : String)
deriving DecidableEq, Repr

/-- Result of a single engine step: the filesystem, the mutations
performed, and the step's boolean outcome. -/
structure StepRes where
  fs : FS
  muts : List Mut
  ok : Bool
deriving DecidableEq, Repr

/-- Result of the delete step: additionally the `removed` flag handed
to the link step (on dry-run it is set without any mutation). -/
structure DelRes where
  fs : FS
  muts : List Mut
  removed : Bool
  ok : Bool
deriving DecidableEq, Repr

/-- `_create`: ensure the link path's parent directory exists. -/
def createStep (sys : Sys) (ctx : Ctx) (fs : FS) (path : String) : StepRes :=
  let parent := nodeResolve sys.cwd (nodeJoin (expandPath sys path) "..")
  if existsFS sys fs parent then ⟨fs, [], true⟩
  else if ctx.dryRun then ⟨fs, [], true⟩
  else
    match mkdirs fs (nodeResolve sys.cwd parent) with
    | some fs' => ⟨fs', [.mkdirp (nodeResolve sys.cwd parent)], true⟩
    | none => ⟨fs, [], false⟩

/-- `_delete(target, path, options)`.  On dry-run a warranted removal
is logged and reported as performed without mutating. -/
def deleteStep (sys : Sys) (ctx : Ctx) (fs : FS) (target path : String)
    (relative canonicalPath force : Bool) : DelRes :=
  let targetPath := nodeJoin (baseDirectory sys ctx canonicalPath) target
  let fullpath := nodeResolve sys.cwd (expandPath sys path)
  if existsFS sys fs path ∧ ¬ isLinkFS sys fs path ∧
      nodeResolve sys.cwd fullpath = nodeResolve sys.cwd targetPath then
    ⟨fs, [], false, false⟩
  else
    let effectiveTarget :=
      if relative then relativePath sys targetPath fullpath else targetPath
    let shouldRemove :=
      (isLinkFS sys fs path ∧ linkTargetFS sys fs path ≠ some effectiveTarget) ∨
      (lexistsFS sys fs path ∧ ¬ isLinkFS sys fs path)
    if shouldRemove then
      if ctx.dryRun then ⟨fs, [], true, true⟩
      else if isLinkFS sys fs fullpath then
        ⟨eraseKey fs (keyOf sys fullpath), [.removed (keyOf sys fullpath)], true, true⟩
      else if force then
        match resolveChain fs linkFuel (keyOf sys fullpath) with
        | some (_, .dir) =>
          ⟨removeTree fs (keyOf sys fullpath), [.removedTree (keyOf sys fullpath)], true, true⟩
        | some _ =>
          ⟨eraseKey fs (keyOf sys fullpath), [.removed (keyOf sys fullpath)], true, true⟩
        | none => ⟨fs, [], false, false⟩
      else ⟨fs, [], false, true⟩
    else ⟨fs, [], false, true⟩

/-- `_link(target, linkName, options)`. -/
def linkStep (sys : Sys) (ctx : Ctx) (fs : FS) (target linkName : String)
    (relative canonicalPath ignoreMissing : Bool) (linkType : String)
    (didDelete : Bool) : StepRes :=
  let linkPath := nodeResolve sys.cwd (expandPath sys linkName)
  let baseDir := baseDirectory sys ctx canonicalPath
  let absoluteTarget := nodeJoin baseDir target
  let targetPath :=
    if relative then relativePath sys absoluteTarget linkPath else absoluteTarget
  if (¬ lexistsFS sys fs linkName ∨ (ctx.dryRun ∧ didDelete)) ∧
      (ignoreMissing ∨ existsFS sys fs absoluteTarget) then
    if ctx.dryRun then ⟨fs, [], true⟩
    else if linkType = "symlink" then
      ⟨insertFS fs linkPath (.symlink targetPath), [.madeSymlink linkPath targetPath], true⟩
    else
      match resolveChain fs linkFuel (nodeResolve sys.cwd absoluteTarget) with
      | some (_, .file d i) =>
        ⟨insertFS fs linkPath (.file d i), [.madeHardlink linkPath], true⟩
      | _ => ⟨fs, [], false⟩
  else if ¬ existsFS sys fs absoluteTarget then ⟨fs, [], false⟩
  else if isLinkFS sys fs linkName then
    if linkType = "symlink" then
      if linkTargetFS sys fs linkName = some targetPath then ⟨fs, [], true⟩
      else ⟨fs, [], false⟩
    else ⟨fs, [], false⟩
  else if linkType = "hardlink" then
    match resolveChain fs linkFuel linkPath,
        resolveChain fs linkFuel (nodeResolve sys.cwd absoluteTarget) with
    | some (_, .file _ i1), some (_, .file _ i2) =>
      if i1 = i2 then ⟨fs, [], true⟩ else ⟨fs, [], false⟩
    | some (k1, .dir), some (k2, .dir) =>
      if k1 = k2 then ⟨fs, [], true⟩ else ⟨fs, [], false⟩
    | _, _ => ⟨fs, [], false⟩
  else ⟨fs, [], false⟩

/-! ### Link plugin: per-entry processing and the directive handler -/

/-- The create/delete/link sequence of the glob loop body (lines
145–170: `_create` when requested, `_delete` when `force` or `relink`,
then `_link` with the `didDelete` flag). -/
def linkEntrySteps (sys : Sys) (ctx : Ctx) (r : REntry) (fs : FS)
    (target linkName : String) (doCreate : Bool) : StepRes :=
  let c := if doCreate then createStep sys ctx fs linkName else ⟨fs, [], true⟩
  let d := if r.force ∨ r.relink then
      deleteStep sys ctx c.fs target linkName r.relative r.canonicalPath r.force
    else ⟨c.fs, [], false, true⟩
  let l := linkStep sys ctx d.fs target linkName r.relative r.canonicalPath
    r.ignoreMissing r.linkType d.removed
  ⟨l.fs, c.muts ++ d.muts ++ l.muts, c.ok && d.ok && l.ok⟩

/-- Lines 124–207 of the `_processLinks` loop body: normalise the
target path, then take the glob or the non-glob branch. -/
def processEntryBody (sys : Sys) (ctx : Ctx) (r : REntry) (fs : FS)
    (expandedLinkName path0 : String) : StepRes :=
  let path := nodeNormalize (expandPath sys path0)
  if r.useGlob ∧ hasGlobChars path then
    let globResults := createGlobResults sys fs path r.excludePaths
    globResults.foldl
      (fun (acc : StepRes) globFullItem =>
        let cp := commonPfx [path, globFullItem]
        let globDirname := dirname cp
        let globItem :=
          if globDirname.length = 0 then globFullItem
          else strDrop globFullItem (globDirname.length + 1)
        let finalGlobItem :=
          if r.basePfx ≠ "" then r.basePfx ++ globItem else globItem
        let globLinkName := nodeJoin expandedLinkName finalGlobItem
        let s := linkEntrySteps sys ctx r acc.fs globFullItem globLinkName r.create
        ⟨s.fs, acc.muts ++ s.muts, s.ok && acc.ok⟩)
      ⟨fs, [], true⟩
  else
    let c := if r.create then createStep sys ctx fs expandedLinkName else ⟨fs, [], true⟩
    if ¬ r.ignoreMissing ∧
        ¬ existsFS sys c.fs (nodeJoin (baseDirectory sys ctx true) path) then
      ⟨c.fs, c.muts, false⟩
    else
      let d := if r.force ∨ r.relink then
          deleteStep sys ctx c.fs path expandedLinkName r.relative r.canonicalPath r.force
        else ⟨c.fs, [], false, true⟩
      let l := linkStep sys ctx d.fs path expandedLinkName r.relative r.canonicalPath
        r.ignoreMissing r.linkType d.removed
      ⟨l.fs, c.muts ++ d.muts ++ l.muts, c.ok && d.ok && l.ok⟩

/-- One iteration of the `_processLinks` loop (lines 71–207): option
resolution, conditional test, glob or non-glob processing.  The Bool is
this entry's contribution to the directive's success (a skipped entry
contributes `true`). -/
def processEntry (sys : Sys) (ctx : Ctx) (defaults : LinkOptions) (fs : FS)
    (linkName : String) (target : LinkTarget) : StepRes :=
  let expandedLinkName := expandVars sys.env (normslash linkName)
  match resolveOpts defaults expandedLinkName target with
  | none => ⟨fs, [], false⟩
  | some r =>
    let path0 := normslash r.path
    match r.test with
    | some t =>
      if ¬ sys.shellOk t then ⟨fs, [], true⟩
      else processEntryBody sys ctx r fs expandedLinkName path0
    | none => processEntryBody sys ctx r fs expandedLinkName path0

/-- `_processLinks` (the `link` directive handler): validate the default
link type, then process every entry in order, AND-ing the outcomes.
The payload is typed as an association list, so the "Links must be an
object" guard cannot fire in the model. -/
def processLinks (sys : Sys) (ctx : Ctx) (defaults : LinkOptions) (fs : FS)
    (links : List (String × LinkTarget)) : StepRes :=
  let defaultLinkType := defaults.type.getD "symlink"
  if defaultLinkType ≠ "symlink" ∧ defaultLinkType ≠ "hardlink" then ⟨fs, [], false⟩
  else
    links.foldl
      (fun (acc : StepRes) kv =>
        let r := processEntry sys ctx defaults acc.fs kv.1 kv.2
        ⟨r.fs, acc.muts ++ r.muts, r.ok && acc.ok⟩)
      ⟨fs, [], true⟩

/-! ### Dispatcher model -/

/-- A JSON-like runtime value, modelling the TypeScript `unknown`
payloads flowing through the dispatcher. -/
inductive JVal where
  | str (s : String)
  | num (n : Int)
  | boolv (b : Bool)
  | nullv
  | arr (xs : List JVal)
  | obj (fields : List (String × JVal))

/-- Field lookup in an object value (`x.name`); `none` for missing
fields and non-objects. -/
def JVal.getField (v : JVal) (name : String) : Option JVal :=
  match v with
  | .obj fields =>
    match fields.find? (fun kv => kv.1 = name) with
    | some kv => some kv.2
    | none => none
  | _ => none

/-- JavaScript `String(x)` for the payloads the dispatcher stringifies
(plugin paths); containers are not needed by any claim and map to "". -/
def JVal.toStr : JVal → String
  | .str s => s
  | .num n => toString n
  | .boolv true => "true"
  | .boolv false => "false"
  | .nullv => "null"
  | _ => ""

/-- A registered handler: the capability contract `canHandle`/`handle`
plus the static dry-run declaration.  `handle` returning `none` models
the handler throwing. -/
structure PluginM where
  canHandle : String → Bool
  handle : String → JVal → Option Bool
  supportsDryRun : Bool

/-- Dispatcher construction options: `--only`/`--except` filters,
fail-fast, dry-run, and the dynamic plugin loader (an external
collaborator; `none` models a module that fails to load). -/
structure DCfg where
  only : Option (List String) := none
  skip : Option (List String) := none
  exit : Bool := false
  dryRun : Bool := false
  loadMods : String → Option (List PluginM) := fun _ => none

/-- The dispatcher-visible mutable state: the Context's stored defaults
(`Context._defaults`, initially `{}`) and the handler registry. -/
structure DState where
  defaults : JVal := .obj []
  plugins : List PluginM := []

/-- `Context.setDefaults`: the whole stored mapping is overwritten. -/
def setDefaults (st : DState) (d : JVal) : DState :=
  { st with defaults := d }

/-- Observable dispatch events, used to state which handlers ran. -/
inductive Ev where
  | invoked (idx : Nat) (action : String) (result : Option Bool)
  | skippedDryRun (idx : Nat) (action : String)
  | unhandled (action : String)
  | invalidTask
  | skippedAction (action : String)
deriving DecidableEq, Repr

/-- Result of the handler fan-out loop. -/
structure LoopRes where
  success : Bool
  handled : Bool
  events : List Ev
  abort : Bool
deriving Repr

/-- The `for (const plugin of this._plugins)` loop (lines 139–174):
every handler claiming the action is tried in registry order; dry-run
skips dry-run-unaware handlers but marks the action handled; a `false`
result under fail-fast (or a throw under fail-fast) aborts the whole
dispatch. -/
def pluginLoop (cfg : DCfg) (action : String) (data : JVal) :
    List PluginM → Nat → Bool → Bool → LoopRes
  | [], _, success, handled => ⟨success, handled, [], false⟩
  | p :: rest, idx, success, handled =>
    if p.canHandle action then
      if cfg.dryRun ∧ ¬ p.supportsDryRun then
        let r := pluginLoop cfg action data rest (idx + 1) success true
        { r with events := .skippedDryRun idx action :: r.events }
      else
        match p.handle action data with
        | some res =>
          if ¬ res ∧ cfg.exit then
            ⟨success, handled, [.invoked idx action (some res)], true⟩
          else
            let r := pluginLoop cfg action data rest (idx + 1) (res && success) true
            { r with events := .invoked idx action (some res) :: r.events }
        | none =>
          if cfg.exit then
            ⟨success, handled, [.invoked idx action none], true⟩
          else
            let r := pluginLoop cfg action data rest (idx + 1) false handled
            { r with events := .invoked idx action none :: r.events }
    else
      pluginLoop cfg action data rest (idx + 1) success handled

/-- Result of processing one directive or one task list. -/
structure ActRes where
  st : DState
  success : Bool
  events : List Ev
  abort : Bool

/-- Lines 79–184: process a single `(action, data)` directive —
`--only`/`--except` filtering, the `defaults` and `plugins` special
cases, the handler fan-out, and the unhandled check. -/
def processAction (cfg : DCfg) (st : DState) (success : Bool)
    (action : String) (data : JVal) : ActRes :=
  let filtered : Bool :=
    (match cfg.only with | some l => ! l.contains action | none => false) ||
    (match cfg.skip with | some l => l.contains action | none => false)
  if filtered ∧ action ≠ "defaults" then
    ⟨st, success, [.skippedAction action], false⟩
  else
    let handled0 := action = "defaults"
    let st1 := if action = "defaults" then setDefaults st data else st
    if action = "plugins" then
      match data with
      | .arr paths =>
        let load := paths.foldl
          (fun (acc : List PluginM × Bool) pp =>
            match cfg.loadMods pp.toStr with
            | some newPs => (acc.1 ++ newPs, acc.2)
            | none => (acc.1, false))
          (st1.plugins, success)
        let st2 := { st1 with plugins := load.1 }
        if ¬ load.2 ∧ cfg.exit then ⟨st2, false, [], true⟩
        else
          let r := pluginLoop cfg action data st2.plugins 0 load.2 true
          if r.abort then ⟨st2, false, r.events, true⟩
          else ⟨st2, r.success, r.events, false⟩
      | _ =>
        let r := pluginLoop cfg action data st1.plugins 0 false true
        if r.abort then ⟨st1, false, r.events, true⟩
        else ⟨st1, r.success, r.events, false⟩
    else
      let r := pluginLoop cfg action data st1.plugins 0 success handled0
      if r.abort then ⟨st1, false, r.events, true⟩
      else if ¬ r.handled then
        ⟨st1, false, r.events ++ [.unhandled action], cfg.exit⟩
      else ⟨st1, r.success, r.events, false⟩

/-- `Object.entries(task)`: a JS object gives its fields, a JS array
gives index/value pairs (arrays pass the `typeof task === "object"`
check); strings, numbers, booleans and null are invalid tasks. -/
def taskEntries : JVal → Option (List (String × JVal))
  | .obj fields => some fields
  | .arr xs => some (xs.enum.map (fun p => (toString p.1, p.2)))
  | _ => none

/-- Process the directives of one task in order. -/
def processTaskEntries (cfg : DCfg) (st : DState) (success : Bool) :
    List (String × JVal) → ActRes
  | [] => ⟨st, success, [], false⟩
  | (a, d) :: rest =>
    let r := processAction cfg st success a d
    if r.abort then ⟨r.st, false, r.events, true⟩
    else
      let r2 := processTaskEntries cfg r.st r.success rest
      ⟨r2.st, r2.success, r.events ++ r2.events, r2.abort⟩

/-- `Dispatcher.dispatch` (lines 69–188): fold the ordered task list,
flagging invalid (non-object) tasks and continuing past them. -/
def dispatchTasks (cfg : DCfg) (st : DState) (success : Bool) :
    List JVal → ActRes
  | [] => ⟨st, success, [], false⟩
  | t :: rest =>
    match taskEntries t with
    | some entries =>
      let r := processTaskEntries cfg st success entries
      if r.abort then ⟨r.st, false, r.events, true⟩
      else
        let r2 := dispatchTasks cfg r.st r.success rest
        ⟨r2.st, r2.success, r.events ++ r2.events, r2.abort⟩
    | none =>
      let r2 := dispatchTasks cfg st false rest
      ⟨r2.st, r2.success, .invalidTask :: r2.events, r2.abort⟩

/-- The dispatch entry point: overall success is false whenever the run
aborted. -/
def dispatch (cfg : DCfg) (st : DState) (tasks : List JVal) :
    DState × Bool × List Ev :=
  let r := dispatchTasks cfg st true tasks
  (r.st, if r.abort then false else r.success, r.events)

/-! ### Spec-side comparison definitions -/

/-- The spec's notion of canonicalisation ("resolved through symbolic
links", `realpath`-style): follow the symlink chain at the final path
component.  Defined for comparison with `baseDirectory`, which the
source implements with the purely lexical `resolve`. -/
def canonicalizedPath (fs : FS) (p : String) : Option String :=
  (resolveChain fs linkFuel p).map (fun r => r.1)

/-! ### Helper lemmas: dispatcher -/

theorem pluginLoop_success_false (cfg : DCfg) (action : String) (data : JVal) :
    ∀ (ps : List PluginM) (idx : Nat) (handled : Bool),
      (pluginLoop cfg action data ps idx false handled).success = false := by
  intro ps
  induction ps with
  | nil => intro idx handled; simp [pluginLoop]
  | cons p rest ih =>
    intro idx handled
    simp only [pluginLoop]
    by_cases hc : p.canHandle action = true
    · simp only [hc, if_true]
      by_cases hd : cfg.dryRun ∧ ¬ p.supportsDryRun = true
      · simp only [if_pos hd]; exact ih (idx + 1) true
      · simp only [if_neg hd]
        cases hres : p.handle action data with
        | some res =>
          by_cases he : ¬ res = true ∧ cfg.exit = true
          · simp [he]
          · simp only [if_neg he]
            have := ih (idx + 1) true
            simpa [Bool.and_false] using this
        | none =>
          by_cases he : cfg.exit = true
          · simp [he]
          · simp only [if_neg he]; exact ih (idx + 1) handled
    · simp only [hc, if_false]; exact ih (idx + 1) handled

theorem loadFold_success_false (cfg : DCfg) (paths : List JVal) :
    ∀ (acc : List PluginM),
      (paths.foldl
        (fun (acc : List PluginM × Bool) pp =>
          match cfg.loadMods pp.toStr with
          | some newPs => (acc.1 ++ newPs, acc.2)
          | none => (acc.1, false))
        (acc, false)).2 = false := by
  induction paths with
  | nil => intro acc; simp
  | cons p rest ih =>
    intro acc
    simp only [List.foldl]
    cases cfg.loadMods p.toStr <;> simp [ih]

theorem processAction_success_false (cfg : DCfg) (st : DState)
    (action : String) (data : JVal) :
    (processAction cfg st false action data).success = false := by
  have hpl := pluginLoop_success_false cfg action data
  simp only [processAction]
  by_cases hflt : ((match cfg.only with
      | some l => ! l.contains action
      | none => false) ||
      (match cfg.skip with
      | some l => l.contains action
      | none => false)) = true ∧ action ≠ "defaults"
  · rw [if_pos hflt]
  · rw [if_neg hflt]
    by_cases h2 : action = "plugins"
    · rw [if_pos h2]
      cases data <;>
        first
          | (rename_i paths
             have hld := loadFold_success_false cfg paths
               (if action = "defaults" then setDefaults st (.arr paths) else st).plugins
             simp only []
             rw [hld]
             split_ifs <;> simp [hpl])
          | (simp only []
             split_ifs <;> simp [hpl])
    · rw [if_neg h2]
      split_ifs <;> simp [hpl]

theorem processTaskEntries_success_false (cfg : DCfg) :
    ∀ (entries : List (String × JVal)) (st : DState),
      (processTaskEntries cfg st false entries).success = false := by
  intro entries
  induction entries with
  | nil => intro st; simp [processTaskEntries]
  | cons e rest ih =>
    intro st
    simp only [processTaskEntries]
    split
    · rfl
    · rename_i hab
      have h1 := processAction_success_false cfg st e.1 e.2
      rw [h1]
      exact ih _

theorem dispatchTasks_success_false (cfg : DCfg) :
    ∀ (tasks : List JVal) (st : DState),
      (dispatchTasks cfg st false tasks).success = false := by
  intro tasks
  induction tasks with
  | nil => intro st; simp [dispatchTasks]
  | cons t rest ih =>
    intro st
    simp only [dispatchTasks]
    split
    · rename_i entries hent
      split
      · rfl
      · rename_i hab
        have h1 := processTaskEntries_success_false cfg entries st
        rw [h1]
        exact ih _
    · exact ih _

/-! ### C3 -/

/-- C3 (amended): each `defaults` directive occurrence replaces the
Context's **entire** stored defaults mapping with its payload — also
dropping stored defaults for directive names absent from the payload;
consequently option keys from an earlier block are dropped unless
repeated. -/
theorem C3_defaults_full_replacement (cfg : DCfg) (st : DState)
    (success : Bool) (d : JVal) :
    (processAction cfg st success "defaults" d).st.defaults = d := by
  simp only [processAction]
  have hfilter : ¬ ((((match cfg.only with
      | some l => ! l.contains "defaults"
      | none => false) ||
      (match cfg.skip with
      | some l => l.contains "defaults"
      | none => false)) = true) ∧ "defaults" ≠ "defaults") := by
    simp
  rw [if_neg hfilter]
  have hpl : ¬ ("defaults" = "plugins") := by decide
  rw [if_neg hpl]
  split_ifs <;> first | rfl | simp_all [setDefaults]

/-- C3 counterexample: after `defaults {link: {force: true}}` followed
by `defaults {shell: {}}`, the stored defaults for `link` are gone —
the code replaces the whole mapping, not only the directive names
present in the later payload, refuting the claim's "for the directive
names present in its payload" restriction. -/
theorem C3_counterexample :
    ((processAction {} ({} : DState) true "defaults"
        (.obj [("link", .obj [("force", .boolv true)])])).st.defaults.getField
        "link" = some (.obj [("force", .boolv true)])) ∧
    ((processAction {}
        (processAction {} ({} : DState) true "defaults"
          (.obj [("link", .obj [("force", .boolv true)])])).st
        true "defaults" (.obj [("shell", .obj [])])).st.defaults.getField
        "link" = none) :=
  ⟨rfl, rfl⟩

/-! ### C4 -/

/-- C4: `Context.baseDirectory(true)` is claimed to resolve the base
path through symbolic links, and its implementation comment says
`resolve` is the equivalent of Python's `os.path.realpath` — but
`resolve` is purely lexical.  With `/base` a symbolic link to `/real`,
the method returns the literal `/base` while the canonicalised path is
`/real`. -/
theorem C4_baseDirectory_lexical_only :
    baseDirectory ⟨"/", "/", [], fun _ => true, fun _ => []⟩ ⟨"/base", false⟩
      true = "/base" ∧
    canonicalizedPath [("/base", .symlink "/real"), ("/real", .dir)] "/base" =
      some "/real" ∧
    ("/base" : String) ≠ "/real" := by
  refine ⟨rfl, rfl, by decide⟩

/-! ### C10 -/

/-- C10: a task-list entry that is not an object (string, number,
boolean or null) is flagged as an invalid task, forces the overall run
to fail, and processing continues with the remaining tasks — it never
aborts on such an entry, whatever the fail-fast setting. -/
theorem C10_invalid_task_continues (cfg : DCfg) (st : DState) (success : Bool)
    (t : JVal) (rest : List JVal) (h : taskEntries t = none) :
    dispatchTasks cfg st success (t :: rest) =
      ⟨(dispatchTasks cfg st false rest).st,
       (dispatchTasks cfg st false rest).success,
       .invalidTask :: (dispatchTasks cfg st false rest).events,
       (dispatchTasks cfg st false rest).abort⟩ ∧
    (dispatch cfg st (t :: rest)).2.1 = false := by
  constructor
  · simp [dispatchTasks, h]
  · simp only [dispatch, dispatchTasks, h]
    have hf := dispatchTasks_success_false cfg rest st
    split <;> simp [hf]

theorem C10_witness :
    taskEntries (.str "oops") = none ∧
    (dispatchTasks {} ({} : DState) true [.str "oops"] =
      ⟨(dispatchTasks {} ({} : DState) false []).st,
       (dispatchTasks {} ({} : DState) false []).success,
       .invalidTask :: (dispatchTasks {} ({} : DState) false []).events,
       (dispatchTasks {} ({} : DState) false []).abort⟩ ∧
    (dispatch {} ({} : DState) [.str "oops"]).2.1 = false) :=
  ⟨rfl, C10_invalid_task_continues {} {} true (.str "oops") [] rfl⟩

/-! ### C9 -/

theorem mem_foldl_append {α β : Type} (g : β → List α) (l : List β)
    (init : List α) (x : α) :
    x ∈ l.foldl (fun acc e => acc ++ g e) init ↔
      x ∈ init ∨ ∃ e ∈ l, x ∈ g e := by
  induction l generalizing init with
  | nil => simp
  | cons b bs ih =>
    simp only [List.foldl, ih, List.mem_append, List.mem_cons]
    constructor
    · rintro (⟨h | h⟩ | ⟨e, he, hx⟩)
      · exact Or.inl h
      · exact Or.inr ⟨b, Or.inl rfl, h⟩
      · exact Or.inr ⟨e, Or.inr he, hx⟩
    · rintro (h | ⟨e, he | he, hx⟩)
      · exact Or.inl (Or.inl h)
      · exact Or.inl (Or.inr (he ▸ hx))
      · exact Or.inr ⟨e, he, hx⟩

/-- C9: under glob mode every exclude pattern is expanded by the same
`_glob` as the destination pattern, and a destination match survives
into the operation list iff it is not produced by any exclude
expansion (exact path equality) — so no excluded path ever yields a
LinkOperation. -/
theorem C9_glob_exclude (sys : Sys) (fs : FS) (pattern : String)
    (excl : List String) (p : String) :
    p ∈ createGlobResults sys fs pattern excl ↔
      (p ∈ globExpand sys fs pattern ∧ ∀ e ∈ excl, p ∉ globExpand sys fs e) := by
  simp only [createGlobResults, List.mem_filter, decide_eq_true_eq,
    mem_foldl_append, List.not_mem_nil, false_or]
  constructor
  · rintro ⟨hin, hne⟩
    exact ⟨hin, fun e he hx => hne ⟨e, he, hx⟩⟩
  · rintro ⟨hin, hall⟩
    exact ⟨hin, fun ⟨e, he, hx⟩ => hall e he hx⟩

/-! ### C2 -/

/-- The spec's description of the fan-out: one `invoked` event per
claiming handler, in registry order. -/
def invokedEvents (action : String) (data : JVal) : List PluginM → Nat → List Ev
  | [], _ => []
  | p :: rest, idx =>
    if p.canHandle action then
      .invoked idx action (p.handle action data) :: invokedEvents action data rest (idx + 1)
    else invokedEvents action data rest (idx + 1)

/-- AND of the results of all claiming handlers (a throw counts as
failure). -/
def andResults (action : String) (data : JVal) : List PluginM → Bool
  | [] => true
  | p :: rest =>
    (if p.canHandle action then (p.handle action data).getD false else true) &&
      andResults action data rest

/-- Some claiming handler completed without throwing (exactly the
condition under which the dispatcher's `handled` flag gets set by the
fan-out loop). -/
def anyHandledOk (action : String) (data : JVal) (ps : List PluginM) : Bool :=
  ps.any (fun p => p.canHandle action && (p.handle action data).isSome)

theorem pluginLoop_spec (cfg : DCfg) (action : String) (data : JVal)
    (h1 : cfg.exit = false) (h2 : cfg.dryRun = false) :
    ∀ (ps : List PluginM) (idx : Nat) (succ handled : Bool),
      pluginLoop cfg action data ps idx succ handled =
        ⟨andResults action data ps && succ,
         handled || anyHandledOk action data ps,
         invokedEvents action data ps idx, false⟩ := by
  intro ps
  induction ps with
  | nil =>
    intro idx succ handled
    simp [pluginLoop, andResults, anyHandledOk, invokedEvents]
  | cons p rest ih =>
    intro idx succ handled
    simp only [pluginLoop]
    by_cases hc : p.canHandle action = true
    · simp only [hc, if_true]
      have hd : ¬ (cfg.dryRun = true ∧ ¬ p.supportsDryRun = true) := by
        simp [h2]
      rw [if_neg hd]
      cases hres : p.handle action data with
      | some res =>
        have he : ¬ (¬ res = true ∧ cfg.exit = true) := by simp [h1]
        dsimp only
        rw [if_neg he, ih]
        simp only [invokedEvents, andResults, anyHandledOk, List.any_cons, hc, hres,
          Option.getD_some, Option.isSome_some, LoopRes.mk.injEq, Bool.true_and,
          Bool.true_or, Bool.or_true, and_true, true_and]
        constructor
        · simp [Bool.and_assoc, Bool.and_comm, Bool.and_left_comm]
        · simp
      | none =>
        have he : ¬ (cfg.exit = true) := by simp [h1]
        dsimp only
        rw [if_neg he, ih]
        simp only [invokedEvents, andResults, anyHandledOk, List.any_cons, hc, hres,
          Option.getD_none, Option.isSome_none, LoopRes.mk.injEq, Bool.false_and,
          Bool.and_false, Bool.true_and, Bool.false_or, and_true, true_and]
        simp
    · simp only [hc, if_false]
      simp [ih, invokedEvents, andResults, anyHandledOk, hc]

/-- C2 (amended): when fail-fast is not set and the run is not a
dry-run, every registered handler whose `canHandle(name)` returns true
is invoked (in registry order, not first-match); the directive's
contribution to the run's success is the AND of all invoked handlers'
results; and a directive claimed by no handler (or whose only claimants
throw) makes the run fail with an `unhandled` error.  Under fail-fast a
failing handler aborts the dispatch before later claiming handlers are
invoked. -/
theorem C2_fanout_all_handlers (cfg : DCfg) (st : DState) (success : Bool)
    (action : String) (data : JVal)
    (h1 : cfg.exit = false) (h2 : cfg.dryRun = false)
    (h3 : cfg.only = none) (h4 : cfg.skip = none)
    (h5 : action ≠ "defaults") (h6 : action ≠ "plugins") :
    processAction cfg st success action data =
      if anyHandledOk action data st.plugins then
        ⟨st, andResults action data st.plugins && success,
         invokedEvents action data st.plugins 0, false⟩
      else
        ⟨st, false, invokedEvents action data st.plugins 0 ++ [.unhandled action],
         false⟩ := by
  simp only [processAction, h3, h4, h5, h6, if_false, Bool.or_self]
  rw [pluginLoop_spec cfg action data h1 h2 st.plugins 0 success (decide False)]
  simp only [decide_False, Bool.false_or]
  by_cases hA : anyHandledOk action data st.plugins = true
  · simp [hA]
  · simp only [Bool.not_eq_true] at hA
    simp [hA, h1]

/-- A handler claiming directive `mix` and failing. -/
def pFailing : PluginM :=
  ⟨fun a => a = "mix", fun _ _ => some false, true⟩

/-- A second handler claiming directive `mix` and succeeding. -/
def pSucceeding : PluginM :=
  ⟨fun a => a = "mix", fun _ _ => some true, true⟩

/-- C2 counterexample: with fail-fast set and two registered handlers
both claiming directive `mix`, the first handler's failure aborts the
dispatch and the second claiming handler is never invoked — refuting
"the dispatcher invokes every registered handler whose canHandle(name)
returns true" as an unconditional statement. -/
theorem C2_counterexample :
    pSucceeding.canHandle "mix" = true ∧
    (processAction ⟨none, none, true, false, fun _ => none⟩
        ⟨.obj [], [pFailing, pSucceeding]⟩ true "mix" .nullv).events =
      [.invoked 0 "mix" (some false)] ∧
    (processAction ⟨none, none, true, false, fun _ => none⟩
        ⟨.obj [], [pFailing, pSucceeding]⟩ true "mix" .nullv).abort = true :=
  ⟨rfl, rfl, rfl⟩

theorem C2_witness :
    (({} : DCfg).exit = false ∧ ({} : DCfg).dryRun = false ∧
      ({} : DCfg).only = none ∧ ({} : DCfg).skip = none ∧
      ("mix" : String) ≠ "defaults" ∧ ("mix" : String) ≠ "plugins") ∧
    processAction {} ⟨.obj [], [pFailing, pSucceeding]⟩ true "mix" .nullv =
      (if anyHandledOk "mix" .nullv [pFailing, pSucceeding] then
        ⟨⟨.obj [], [pFailing, pSucceeding]⟩,
         andResults "mix" .nullv [pFailing, pSucceeding] && true,
         invokedEvents "mix" .nullv [pFailing, pSucceeding] 0, false⟩
      else
        ⟨⟨.obj [], [pFailing, pSucceeding]⟩, false,
         invokedEvents "mix" .nullv [pFailing, pSucceeding] 0 ++
           [.unhandled "mix"], false⟩) :=
  ⟨⟨rfl, rfl, rfl, rfl, by decide, by decide⟩,
   C2_fanout_all_handlers {} ⟨.obj [], [pFailing, pSucceeding]⟩ true "mix" .nullv
     rfl rfl rfl rfl (by decide) (by decide)⟩

/-! ### Helper lemmas: filesystem -/

theorem resolveChain_linkFuel (fs : FS) (k : String) :
    resolveChain fs linkFuel k =
      match lookupFS fs k with
      | some (.symlink t) => resolveChain fs 39 (nodeResolve (dirname k) t)
      | some e => some (k, e)
      | none => none := rfl

theorem lookupFS_insert_self (fs : FS) (k : String) (e : FSEntry) :
    lookupFS (insertFS fs k e) k = some e := by
  simp [insertFS, lookupFS]

theorem lookupFS_insert_ne (fs : FS) (k k' : String) (e : FSEntry)
    (h : k ≠ k') : lookupFS (insertFS fs k e) k' = lookupFS fs k' := by
  simp [insertFS, lookupFS, h]

theorem resolveChain_insert_fresh (fs : FS) (k : String) (e : FSEntry)
    (hk : lookupFS fs k = none) :
    ∀ (n : Nat) (p : String) (r : String × FSEntry),
      resolveChain fs n p = some r →
      resolveChain (insertFS fs k e) n p = some r := by
  intro n
  induction n with
  | zero => intro p r h; simp [resolveChain] at h
  | succ m ih =>
    intro p r h
    by_cases hpk : p = k
    · subst hpk
      simp [resolveChain, hk] at h
    · simp only [resolveChain] at h ⊢
      rw [lookupFS_insert_ne fs k p e (fun hh => hpk hh.symm)]
      cases hl : lookupFS fs p with
      | none => rw [hl] at h; exact absurd h (by simp)
      | some ent =>
        rw [hl] at h
        cases ent with
        | symlink t => exact ih _ _ h
        | file d i => exact h
        | dir => exact h

theorem existsFS_insert_fresh (sys : Sys) (fs : FS) (k : String) (e : FSEntry)
    (hk : lookupFS fs k = none) (p : String)
    (h : existsFS sys fs p = true) :
    existsFS sys (insertFS fs k e) p = true := by
  simp only [existsFS, Option.isSome_iff_exists] at h ⊢
  obtain ⟨r, hr⟩ := h
  exact ⟨r, resolveChain_insert_fresh fs k e hk _ _ _ hr⟩

/-! ### C5 -/

/-- C5 (amended): in the delete step (entered only under `force` or
`relink`), on a real (non-dry) run a removal occurs iff either (a) the
link path is a symbolic link whose literal recorded target differs
from the desired resolved target, or (b) the link path exists, is not
a symbolic link, and `force` is set — **provided** the same-file safety
guard does not abort the step first; when the link path exists, is not
a link, and resolves to the same path as the target, the step aborts
with no removal even though (b) holds. -/
theorem C5_delete_removal_iff (sys : Sys) (ctx : Ctx) (fs : FS)
    (target path : String) (relative canonicalPath force : Bool)
    (hdry : ctx.dryRun = false)
    (hkey : keyOf sys (nodeResolve sys.cwd (expandPath sys path)) = keyOf sys path)
    (hguard : ¬ (existsFS sys fs path = true ∧
        ¬ isLinkFS sys fs path = true ∧
        nodeResolve sys.cwd (nodeResolve sys.cwd (expandPath sys path)) =
          nodeResolve sys.cwd (nodeJoin (baseDirectory sys ctx canonicalPath) target))) :
    (deleteStep sys ctx fs target path relative canonicalPath force).muts ≠ [] ↔
      ((isLinkFS sys fs path = true ∧
          linkTargetFS sys fs path ≠ some
            (if relative then
              relativePath sys (nodeJoin (baseDirectory sys ctx canonicalPath) target)
                (nodeResolve sys.cwd (expandPath sys path))
            else nodeJoin (baseDirectory sys ctx canonicalPath) target)) ∨
        (lexistsFS sys fs path = true ∧ isLinkFS sys fs path = false ∧
          force = true)) := by
  have hIL : isLinkFS sys fs (nodeResolve sys.cwd (expandPath sys path)) =
      isLinkFS sys fs path := by
    simp [isLinkFS, hkey]
  simp only [deleteStep]
  rw [if_neg hguard]
  by_cases hsr : (isLinkFS sys fs path = true ∧
      ¬ linkTargetFS sys fs path = some
        (if relative then
          relativePath sys (nodeJoin (baseDirectory sys ctx canonicalPath) target)
            (nodeResolve sys.cwd (expandPath sys path))
        else nodeJoin (baseDirectory sys ctx canonicalPath) target)) ∨
      (lexistsFS sys fs path = true ∧ ¬ isLinkFS sys fs path = true)
  · rw [if_pos hsr, hdry]
    simp only [Bool.false_eq_true, if_false]
    by_cases hil : isLinkFS sys fs path = true
    · rw [hIL.symm] at hil
      rw [if_pos hil]
      simp only [ne_eq, List.cons_ne_self, not_false_eq_true, true_iff]
      rw [hIL] at hil
      left
      rcases hsr with h | h
      · exact ⟨hil, h.2⟩
      · exact absurd hil h.2
    · rw [hIL.symm] at hil
      rw [if_neg hil]
      rw [hIL] at hil
      have hlex : lexistsFS sys fs path = true := by
        rcases hsr with h | h
        · exact absurd h.1 hil
        · exact h.1
      cases hforce : force with
      | false =>
        simp only [Bool.false_eq_true, if_false]
        simp only [ne_eq, not_true_eq_false, false_iff]
        push_neg
        constructor
        · intro h; exact absurd h hil
        · intro _ _; simp
      | true =>
        simp only [if_true]
        have hent : ∃ e, lookupFS fs (keyOf sys path) = some e ∧
            (∀ t, e ≠ .symlink t) := by
          simp only [lexistsFS, Option.isSome_iff_exists] at hlex
          obtain ⟨e, he⟩ := hlex
          refine ⟨e, he, ?_⟩
          intro t het
          subst het
          simp [isLinkFS, he] at hil
        obtain ⟨e, he, hes⟩ := hent
        have hrc : resolveChain fs linkFuel (keyOf sys
            (nodeResolve sys.cwd (expandPath sys path))) = some (keyOf sys path, e) := by
          rw [hkey, resolveChain_linkFuel, he]
          cases e with
          | symlink t => exact absurd rfl (hes t)
          | file d i => rfl
          | dir => rfl
        rw [hrc]
        cases e with
        | symlink t => exact absurd rfl (hes t)
        | file d i =>
          simp only [ne_eq, List.cons_ne_self, not_false_eq_true, true_iff]
          right
          exact ⟨hlex, by simpa using hil, trivial⟩
        | dir =>
          simp only [ne_eq, List.cons_ne_self, not_false_eq_true, true_iff]
          right
          exact ⟨hlex, by simpa using hil, trivial⟩
  · rw [if_neg hsr]
    simp only [ne_eq, not_true_eq_false, false_iff]
    push_neg at hsr ⊢
    constructor
    · exact hsr.1
    · intro hlex hil
      have h2 := hsr.2 hlex
      rw [hil] at h2
      exact fun _ => by simp at h2

/-- C5 counterexample: link path `/b/x` holds a regular file, `force`
is set, and the path lexically equals the target path `join(/b, x)`;
the same-file safety guard aborts the delete step, so no removal
occurs although clause (b) of the claim (exists, non-symlink, force)
holds. -/
theorem C5_counterexample :
    (lexistsFS ⟨"/", "/", [], fun _ => true, fun _ => []⟩
        [("/b/x", .file 1 5)] "/b/x" = true ∧
      isLinkFS ⟨"/", "/", [], fun _ => true, fun _ => []⟩
        [("/b/x", .file 1 5)] "/b/x" = false) ∧
    (deleteStep ⟨"/", "/", [], fun _ => true, fun _ => []⟩ ⟨"/b", false⟩
        [("/b/x", .file 1 5)] "x" "/b/x" false true true).muts = [] ∧
    (deleteStep ⟨"/", "/", [], fun _ => true, fun _ => []⟩ ⟨"/b", false⟩
        [("/b/x", .file 1 5)] "x" "/b/x" false true true).removed = false := by
  refine ⟨⟨by decide, by decide⟩, by decide, by decide⟩

theorem C5_witness :
    ((⟨"/b", false⟩ : Ctx).dryRun = false ∧
      keyOf ⟨"/", "/", [], fun _ => true, fun _ => []⟩
        (nodeResolve "/" (expandPath ⟨"/", "/", [], fun _ => true, fun _ => []⟩ "/lnk")) =
        keyOf ⟨"/", "/", [], fun _ => true, fun _ => []⟩ "/lnk") ∧
    ((deleteStep ⟨"/", "/", [], fun _ => true, fun _ => []⟩ ⟨"/b", false⟩
        [("/lnk", .symlink "/old"), ("/b/x", .file 1 2)] "x" "/lnk"
        false true false).muts ≠ [] ↔
      ((isLinkFS ⟨"/", "/", [], fun _ => true, fun _ => []⟩
          [("/lnk", .symlink "/old"), ("/b/x", .file 1 2)] "/lnk" = true ∧
        linkTargetFS ⟨"/", "/", [], fun _ => true, fun _ => []⟩
          [("/lnk", .symlink "/old"), ("/b/x", .file 1 2)] "/lnk" ≠ some
          (if false then
            relativePath ⟨"/", "/", [], fun _ => true, fun _ => []⟩
              (nodeJoin (baseDirectory ⟨"/", "/", [], fun _ => true, fun _ => []⟩
                ⟨"/b", false⟩ true) "x")
              (nodeResolve "/" (expandPath ⟨"/", "/", [], fun _ => true, fun _ => []⟩ "/lnk"))
          else nodeJoin (baseDirectory ⟨"/", "/", [], fun _ => true, fun _ => []⟩
            ⟨"/b", false⟩ true) "x")) ∨
        (lexistsFS ⟨"/", "/", [], fun _ => true, fun _ => []⟩
            [("/lnk", .symlink "/old"), ("/b/x", .file 1 2)] "/lnk" = true ∧
          isLinkFS ⟨"/", "/", [], fun _ => true, fun _ => []⟩
            [("/lnk", .symlink "/old"), ("/b/x", .file 1 2)] "/lnk" = false ∧
          (false : Bool) = true))) :=
  ⟨⟨rfl, by decide⟩,
   C5_delete_removal_iff ⟨"/", "/", [], fun _ => true, fun _ => []⟩ ⟨"/b", false⟩
     [("/lnk", .symlink "/old"), ("/b/x", .file 1 2)] "x" "/lnk" false true false
     rfl (by decide) (by decide)⟩

/-! ### C8 -/

/-- C8 (amended): in the link step with `type=hardlink`, when the link
path exists and is not a symbolic link, the engine compares only the
**inode numbers** of the link path and the target (`linkStat.ino ===
targetStat.ino` — the device identity is not compared): inode equality
is idempotent success with no mutation, inode inequality is failure. -/
theorem C8_hardlink_compares_inode_only (sys : Sys) (ctx : Ctx) (fs : FS)
    (target linkName : String) (relative canonicalPath ignoreMissing : Bool)
    (d1 i1 d2 i2 : Nat) (k2 : String)
    (hlink : lookupFS fs (keyOf sys linkName) = some (.file d1 i1))
    (habs : resolveChain fs linkFuel
        (nodeResolve sys.cwd (nodeJoin (baseDirectory sys ctx canonicalPath) target)) =
        some (k2, .file d2 i2))
    (hex : existsFS sys fs (nodeJoin (baseDirectory sys ctx canonicalPath) target) = true) :
    linkStep sys ctx fs target linkName relative canonicalPath ignoreMissing
        "hardlink" false = ⟨fs, [], decide (i1 = i2)⟩ := by
  have hlex : lexistsFS sys fs linkName = true := by
    simp [lexistsFS, hlink]
  have hil : isLinkFS sys fs linkName = false := by
    simp [isLinkFS, hlink]
  have hrc1 : resolveChain fs linkFuel (nodeResolve sys.cwd (expandPath sys linkName)) =
      some (nodeResolve sys.cwd (expandPath sys linkName), .file d1 i1) := by
    rw [resolveChain_linkFuel]
    have hk : lookupFS fs (nodeResolve sys.cwd (expandPath sys linkName)) =
        some (.file d1 i1) := hlink
    rw [hk]
  simp only [linkStep]
  rw [if_neg (by simp [hlex])]
  rw [if_neg (by simp [hex])]
  rw [if_neg (by simp [hil])]
  rw [if_pos trivial]
  rw [hrc1, habs]
  dsimp only
  by_cases hi : i1 = i2
  · rw [if_pos hi]
    simp [hi]
  · rw [if_neg hi]
    simp [hi]

/-- C8 counterexample: link path `/lnk` is a regular file on device 1
with inode 5; the target `/t` is a regular file on device 2 with inode
5.  Their device+inode identities differ, yet the link step reports
idempotent success, because the code compares `ino` only — refuting
"compares the device+inode identity ... inequality is failure". -/
theorem C8_counterexample :
    (((1 : Nat), (5 : Nat)) ≠ ((2 : Nat), (5 : Nat))) ∧
    (linkStep ⟨"/", "/", [], fun _ => true, fun _ => []⟩ ⟨"/", false⟩
        [("/lnk", .file 1 5), ("/t", .file 2 5)] "t" "/lnk"
        false true false "hardlink" false).ok = true ∧
    (linkStep ⟨"/", "/", [], fun _ => true, fun _ => []⟩ ⟨"/", false⟩
        [("/lnk", .file 1 5), ("/t", .file 2 5)] "t" "/lnk"
        false true false "hardlink" false).muts = [] := by
  refine ⟨by decide, by decide, by decide⟩

theorem C8_witness :
    (lookupFS [("/lnk", FSEntry.file 1 7), ("/t", FSEntry.file 1 7)]
        (keyOf ⟨"/", "/", [], fun _ => true, fun _ => []⟩ "/lnk") =
        some (.file 1 7) ∧
      resolveChain [("/lnk", FSEntry.file 1 7), ("/t", FSEntry.file 1 7)] linkFuel
        (nodeResolve "/" (nodeJoin (baseDirectory
          ⟨"/", "/", [], fun _ => true, fun _ => []⟩ ⟨"/", false⟩ true) "t")) =
        some ("/t", .file 1 7) ∧
      existsFS ⟨"/", "/", [], fun _ => true, fun _ => []⟩
        [("/lnk", FSEntry.file 1 7), ("/t", FSEntry.file 1 7)]
        (nodeJoin (baseDirectory ⟨"/", "/", [], fun _ => true, fun _ => []⟩
          ⟨"/", false⟩ true) "t") = true) ∧
    linkStep ⟨"/", "/", [], fun _ => true, fun _ => []⟩ ⟨"/", false⟩
        [("/lnk", FSEntry.file 1 7), ("/t", FSEntry.file 1 7)] "t" "/lnk"
        false true false "hardlink" false =
      ⟨[("/lnk", FSEntry.file 1 7), ("/t", FSEntry.file 1 7)], [], decide (7 = 7)⟩ :=
  ⟨⟨by decide, by decide, by decide⟩,
   C8_hardlink_compares_inode_only ⟨"/", "/", [], fun _ => true, fun _ => []⟩
     ⟨"/", false⟩ [("/lnk", FSEntry.file 1 7), ("/t", FSEntry.file 1 7)]
     "t" "/lnk" false true false 1 7 1 7 "/t" (by decide) (by decide) (by decide)⟩

/-! ### C6 -/

theorem mkdirsFold_preserves (k0 : String) (e : FSEntry) :
    ∀ (ks : List String) (acc : Option FS) (fs' : FS),
      (∀ fs, acc = some fs → lookupFS fs k0 = some e) →
      ks.foldl
        (fun acc k =>
          match acc with
          | none => none
          | some fs' =>
            match resolveChain fs' linkFuel k with
            | some (_, .dir) => some fs'
            | some _ => none
            | none =>
              match lookupFS fs' k with
              | some _ => none
              | none => some (insertFS fs' k .dir)) acc = some fs' →
      lookupFS fs' k0 = some e := by
  intro ks
  induction ks with
  | nil =>
    intro acc fs' hinv h
    simp only [List.foldl] at h
    exact hinv fs' h
  | cons k ks ih =>
    intro acc fs' hinv h
    simp only [List.foldl] at h
    refine ih _ fs' ?_ h
    intro fsy hy
    cases acc with
    | none => simp at hy
    | some fsx =>
      have hfx := hinv fsx rfl
      simp only [] at hy
      cases hrc : resolveChain fsx linkFuel k with
      | some pr =>
        rw [hrc] at hy
        cases pr with
        | mk kk ent =>
          cases ent with
          | dir =>
            simp at hy
            rw [← hy]
            exact hfx
          | file d i => simp at hy
          | symlink t => simp at hy
      | none =>
        rw [hrc] at hy
        cases hlk : lookupFS fsx k with
        | some _ => rw [hlk] at hy; simp at hy
        | none =>
          rw [hlk] at hy
          simp only [Option.some.injEq] at hy
          rw [← hy]
          have hkne : k ≠ k0 := by
            intro hkk
            rw [hkk, hfx] at hlk
            exact absurd hlk (by simp)
          rw [lookupFS_insert_ne fsx k k0 .dir hkne]
          exact hfx

theorem mkdirs_preserves_lookup (fs : FS) (key k0 : String) (e : FSEntry)
    (h : lookupFS fs k0 = some e) (fs' : FS) (hm : mkdirs fs key = some fs') :
    lookupFS fs' k0 = some e := by
  refine mkdirsFold_preserves k0 e (ancestorKeys key) (some fs) fs' ?_ hm
  intro fsx hx
  simp only [Option.some.injEq] at hx
  rw [← hx]
  exact h

theorem createStep_preserves_lookup (sys : Sys) (ctx : Ctx) (fs : FS)
    (path : String) (k0 : String) (e : FSEntry)
    (h : lookupFS fs k0 = some e) :
    lookupFS (createStep sys ctx fs path).fs k0 = some e := by
  simp only [createStep]
  split
  · exact h
  · split
    · exact h
    · cases hm : mkdirs fs
        (nodeResolve sys.cwd (nodeResolve sys.cwd
          (nodeJoin (expandPath sys path) ".."))) with
      | some fs' =>
        dsimp only
        exact mkdirs_preserves_lookup fs _ k0 e h fs' hm
      | none =>
        dsimp only
        exact h

theorem linkStep_divergent_symlink (sys : Sys) (ctx : Ctx) (fs : FS)
    (target linkName : String) (relative canonicalPath ignoreMissing : Bool)
    (linkType : String) (t : String)
    (hlink : lookupFS fs (keyOf sys linkName) = some (.symlink t))
    (hne : t ≠ (if relative then
        relativePath sys (nodeJoin (baseDirectory sys ctx canonicalPath) target)
          (nodeResolve sys.cwd (expandPath sys linkName))
      else nodeJoin (baseDirectory sys ctx canonicalPath) target)) :
    linkStep sys ctx fs target linkName relative canonicalPath ignoreMissing
      linkType false = ⟨fs, [], false⟩ := by
  have hlex : lexistsFS sys fs linkName = true := by
    simp [lexistsFS, hlink]
  have hil : isLinkFS sys fs linkName = true := by
    simp [isLinkFS, hlink]
  have hlt : linkTargetFS sys fs linkName = some t := by
    simp [linkTargetFS, hlink]
  simp only [linkStep]
  rw [if_neg (by simp [hlex])]
  by_cases hex : existsFS sys fs
      (nodeJoin (baseDirectory sys ctx canonicalPath) target) = true
  · rw [if_neg (by simp [hex])]
    rw [if_pos hil]
    by_cases hst : linkType = "symlink"
    · rw [if_pos hst, hlt]
      rw [if_neg (by simpa using hne)]
    · rw [if_neg hst]
  · rw [if_pos (by simp [hex])]

/-- C6: for an existing symbolic link at the (expanded) link path whose
recorded target differs byte-for-byte from the desired resolved target,
running the engine on that entry with both `force` and `relink`
resolved to false (no conditional skip, non-glob) reports failure and
leaves the symlink's recorded target unchanged. -/
theorem C6_no_silent_overwrite (sys : Sys) (ctx : Ctx) (defaults : LinkOptions)
    (fs : FS) (linkName : String) (target : LinkTarget) (r : REntry) (t : String)
    (hr : resolveOpts defaults (expandVars sys.env (normslash linkName)) target =
      some r)
    (hforce : r.force = false) (hrelink : r.relink = false)
    (htest : r.test = none)
    (hglob : ¬ (r.useGlob = true ∧
      hasGlobChars (nodeNormalize (expandPath sys (normslash r.path))) = true))
    (hlink : lookupFS fs (keyOf sys (expandVars sys.env (normslash linkName))) =
      some (.symlink t))
    (hne : t ≠ (if r.relative then
        relativePath sys
          (nodeJoin (baseDirectory sys ctx r.canonicalPath)
            (nodeNormalize (expandPath sys (normslash r.path))))
          (nodeResolve sys.cwd (expandPath sys (expandVars sys.env (normslash linkName))))
      else nodeJoin (baseDirectory sys ctx r.canonicalPath)
        (nodeNormalize (expandPath sys (normslash r.path))))) :
    (processEntry sys ctx defaults fs linkName target).ok = false ∧
    lookupFS (processEntry sys ctx defaults fs linkName target).fs
      (keyOf sys (expandVars sys.env (normslash linkName))) = some (.symlink t) := by
  simp only [processEntry, hr, htest]
  simp only [processEntryBody]
  rw [if_neg hglob]
  set eLN := expandVars sys.env (normslash linkName) with heln
  set c : StepRes :=
    if r.create = true then createStep sys ctx fs eLN else ⟨fs, [], true⟩ with hcdef
  have hc : lookupFS c.fs (keyOf sys eLN) = some (.symlink t) := by
    rw [hcdef]
    split
    · exact createStep_preserves_lookup sys ctx fs eLN _ _ hlink
    · exact hlink
  by_cases hearly : (¬ r.ignoreMissing = true ∧
      ¬ existsFS sys c.fs (nodeJoin (baseDirectory sys ctx true)
        (nodeNormalize (expandPath sys (normslash r.path)))) = true)
  · rw [if_pos hearly]
    exact ⟨rfl, hc⟩
  · rw [if_neg hearly]
    rw [if_neg (by simp [hforce, hrelink])]
    rw [linkStep_divergent_symlink sys ctx c.fs _ eLN r.relative r.canonicalPath
      r.ignoreMissing r.linkType t hc hne]
    refine ⟨by simp, hc⟩

/-- Concrete run environment for the symlink scenarios. -/
def sysW : Sys := ⟨"/cwd", "/home/user", [], fun _ => true, fun _ => []⟩

/-- Concrete context: base directory `/home/user/dotfiles`, real run. -/
def ctxW : Ctx := ⟨"/home/user/dotfiles", false⟩

/-- Concrete filesystem: home and base directories plus the dotfile
`vimrc`, with a divergent symlink already at `~/.vimrc`. -/
def fsDivergent : FS :=
  [("/home/user/.vimrc", .symlink "/elsewhere"),
   ("/home/user", .dir),
   ("/home/user/dotfiles", .dir),
   ("/home/user/dotfiles/vimrc", .file 1 10)]

/-- The resolved options of the entry `"~/.vimrc": "vimrc"` under empty
defaults. -/
def rPlain : REntry :=
  ⟨false, true, "symlink", false, false, false, false, "", none, false, [], "vimrc"⟩

theorem C6_witness :
    (resolveOpts {} (expandVars sysW.env (normslash "~/.vimrc"))
        (.bare (some "vimrc")) = some rPlain ∧
      rPlain.force = false ∧ rPlain.relink = false ∧ rPlain.test = none ∧
      ¬ (rPlain.useGlob = true ∧
        hasGlobChars (nodeNormalize (expandPath sysW (normslash rPlain.path))) = true) ∧
      lookupFS fsDivergent
        (keyOf sysW (expandVars sysW.env (normslash "~/.vimrc"))) =
        some (.symlink "/elsewhere") ∧
      ("/elsewhere" : String) ≠ (if rPlain.relative then
        relativePath sysW
          (nodeJoin (baseDirectory sysW ctxW rPlain.canonicalPath)
            (nodeNormalize (expandPath sysW (normslash rPlain.path))))
          (nodeResolve sysW.cwd
            (expandPath sysW (expandVars sysW.env (normslash "~/.vimrc"))))
      else nodeJoin (baseDirectory sysW ctxW rPlain.canonicalPath)
        (nodeNormalize (expandPath sysW (normslash rPlain.path))))) ∧
    ((processEntry sysW ctxW {} fsDivergent "~/.vimrc" (.bare (some "vimrc"))).ok =
        false ∧
      lookupFS (processEntry sysW ctxW {} fsDivergent "~/.vimrc"
          (.bare (some "vimrc"))).fs
        (keyOf sysW (expandVars sysW.env (normslash "~/.vimrc"))) =
        some (.symlink "/elsewhere")) :=
  ⟨⟨by decide, rfl, rfl, rfl, by decide, by decide, by decide⟩,
   C6_no_silent_overwrite sysW ctxW {} fsDivergent "~/.vimrc"
     (.bare (some "vimrc")) rPlain "/elsewhere" (by decide) rfl rfl rfl
     (by decide) (by decide) (by decide)⟩

/-! ### C7 -/

theorem createStep_dry (sys : Sys) (ctx : Ctx) (fs : FS) (path : String)
    (h : ctx.dryRun = true) :
    (createStep sys ctx fs path).fs = fs ∧ (createStep sys ctx fs path).muts = [] := by
  simp only [createStep]
  repeat' split
  all_goals first | exact ⟨rfl, rfl⟩ | (exfalso; simp_all)

theorem deleteStep_dry (sys : Sys) (ctx : Ctx) (fs : FS) (target path : String)
    (relative canonicalPath force : Bool) (h : ctx.dryRun = true) :
    (deleteStep sys ctx fs target path relative canonicalPath force).fs = fs ∧
    (deleteStep sys ctx fs target path relative canonicalPath force).muts = [] := by
  simp only [deleteStep]
  repeat' split
  all_goals first | exact ⟨rfl, rfl⟩ | (exfalso; simp_all)

theorem linkStep_dry (sys : Sys) (ctx : Ctx) (fs : FS) (target linkName : String)
    (relative canonicalPath ignoreMissing : Bool) (linkType : String)
    (didDelete : Bool) (h : ctx.dryRun = true) :
    (linkStep sys ctx fs target linkName relative canonicalPath ignoreMissing
        linkType didDelete).fs = fs ∧
    (linkStep sys ctx fs target linkName relative canonicalPath ignoreMissing
        linkType didDelete).muts = [] := by
  simp only [linkStep]
  repeat' split
  all_goals first | exact ⟨rfl, rfl⟩ | (exfalso; simp_all)

theorem linkEntrySteps_dry (sys : Sys) (ctx : Ctx) (r : REntry) (fs : FS)
    (target linkName : String) (doCreate : Bool) (h : ctx.dryRun = true) :
    (linkEntrySteps sys ctx r fs target linkName doCreate).fs = fs ∧
    (linkEntrySteps sys ctx r fs target linkName doCreate).muts = [] := by
  simp only [linkEntrySteps]
  have hc : (if doCreate = true then createStep sys ctx fs linkName
      else ⟨fs, [], true⟩).fs = fs ∧
      (if doCreate = true then createStep sys ctx fs linkName
      else ⟨fs, [], true⟩).muts = [] := by
    split
    · exact createStep_dry sys ctx fs linkName h
    · exact ⟨rfl, rfl⟩
  rw [hc.1, hc.2]
  have hd : (if r.force = true ∨ r.relink = true then
      deleteStep sys ctx fs target linkName r.relative r.canonicalPath r.force
      else ⟨fs, [], false, true⟩).fs = fs ∧
      (if r.force = true ∨ r.relink = true then
      deleteStep sys ctx fs target linkName r.relative r.canonicalPath r.force
      else ⟨fs, [], false, true⟩).muts = [] := by
    split
    · exact deleteStep_dry sys ctx fs target linkName r.relative r.canonicalPath r.force h
    · exact ⟨rfl, rfl⟩
  rw [hd.1, hd.2]
  have hl := linkStep_dry sys ctx fs target linkName r.relative r.canonicalPath
    r.ignoreMissing r.linkType
    (if r.force = true ∨ r.relink = true then
      deleteStep sys ctx fs target linkName r.relative r.canonicalPath r.force
      else ⟨fs, [], false, true⟩).removed h
  rw [hl.1, hl.2]
  exact ⟨rfl, rfl⟩

theorem globFold_dry (sys : Sys) (ctx : Ctx) (r : REntry)
    (eLN path : String) (h : ctx.dryRun = true) :
    ∀ (items : List String) (acc : StepRes),
      (items.foldl
        (fun (acc : StepRes) globFullItem =>
          let cp := commonPfx [path, globFullItem]
          let globDirname := dirname cp
          let globItem :=
            if globDirname.length = 0 then globFullItem
            else strDrop globFullItem (globDirname.length + 1)
          let finalGlobItem :=
            if r.basePfx ≠ "" then r.basePfx ++ globItem else globItem
          let globLinkName := nodeJoin eLN finalGlobItem
          let s := linkEntrySteps sys ctx r acc.fs globFullItem globLinkName r.create
          ⟨s.fs, acc.muts ++ s.muts, s.ok && acc.ok⟩) acc).fs = acc.fs ∧
      (items.foldl
        (fun (acc : StepRes) globFullItem =>
          let cp := commonPfx [path, globFullItem]
          let globDirname := dirname cp
          let globItem :=
            if globDirname.length = 0 then globFullItem
            else strDrop globFullItem (globDirname.length + 1)
          let finalGlobItem :=
            if r.basePfx ≠ "" then r.basePfx ++ globItem else globItem
          let globLinkName := nodeJoin eLN finalGlobItem
          let s := linkEntrySteps sys ctx r acc.fs globFullItem globLinkName r.create
          ⟨s.fs, acc.muts ++ s.muts, s.ok && acc.ok⟩) acc).muts = acc.muts := by
  intro items
  induction items with
  | nil => intro acc; exact ⟨rfl, rfl⟩
  | cons it rest ih =>
    intro acc
    simp only [List.foldl]
    have hs := linkEntrySteps_dry sys ctx r acc.fs it
      (nodeJoin eLN
        (if r.basePfx ≠ "" then
          r.basePfx ++
            (if (dirname (commonPfx [path, it])).length = 0 then it
             else strDrop it ((dirname (commonPfx [path, it])).length + 1))
        else
          (if (dirname (commonPfx [path, it])).length = 0 then it
           else strDrop it ((dirname (commonPfx [path, it])).length + 1))))
      r.create h
    obtain ⟨h1, h2⟩ := ih
      ⟨(linkEntrySteps sys ctx r acc.fs it
          (nodeJoin eLN
            (if r.basePfx ≠ "" then
              r.basePfx ++
                (if (dirname (commonPfx [path, it])).length = 0 then it
                 else strDrop it ((dirname (commonPfx [path, it])).length + 1))
            else
              (if (dirname (commonPfx [path, it])).length = 0 then it
               else strDrop it ((dirname (commonPfx [path, it])).length + 1))))
          r.create).fs,
        acc.muts ++ (linkEntrySteps sys ctx r acc.fs it
          (nodeJoin eLN
            (if r.basePfx ≠ "" then
              r.basePfx ++
                (if (dirname (commonPfx [path, it])).length = 0 then it
                 else strDrop it ((dirname (commonPfx [path, it])).length + 1))
            else
              (if (dirname (commonPfx [path, it])).length = 0 then it
               else strDrop it ((dirname (commonPfx [path, it])).length + 1))))
          r.create).muts,
        (linkEntrySteps sys ctx r acc.fs it
          (nodeJoin eLN
            (if r.basePfx ≠ "" then
              r.basePfx ++
                (if (dirname (commonPfx [path, it])).length = 0 then it
                 else strDrop it ((dirname (commonPfx [path, it])).length + 1))
            else
              (if (dirname (commonPfx [path, it])).length = 0 then it
               else strDrop it ((dirname (commonPfx [path, it])).length + 1))))
          r.create).ok && acc.ok⟩
    rw [h1, h2]
    exact ⟨hs.1, by rw [hs.2, List.append_nil]⟩

theorem processEntryBody_dry (sys : Sys) (ctx : Ctx) (r : REntry) (fs : FS)
    (eLN path0 : String) (h : ctx.dryRun = true) :
    (processEntryBody sys ctx r fs eLN path0).fs = fs ∧
    (processEntryBody sys ctx r fs eLN path0).muts = [] := by
  simp only [processEntryBody]
  split
  · have := globFold_dry sys ctx r eLN (nodeNormalize (expandPath sys path0)) h
      (createGlobResults sys fs (nodeNormalize (expandPath sys path0)) r.excludePaths)
      ⟨fs, [], true⟩
    exact this
  · have hc : (if r.create = true then createStep sys ctx fs eLN
        else ⟨fs, [], true⟩).fs = fs ∧
        (if r.create = true then createStep sys ctx fs eLN
        else ⟨fs, [], true⟩).muts = [] := by
      split
      · exact createStep_dry sys ctx fs eLN h
      · exact ⟨rfl, rfl⟩
    rw [hc.1, hc.2]
    split
    · exact ⟨rfl, rfl⟩
    · have hd : (if r.force = true ∨ r.relink = true then
          deleteStep sys ctx fs (nodeNormalize (expandPath sys path0)) eLN
            r.relative r.canonicalPath r.force
          else ⟨fs, [], false, true⟩).fs = fs ∧
          (if r.force = true ∨ r.relink = true then
          deleteStep sys ctx fs (nodeNormalize (expandPath sys path0)) eLN
            r.relative r.canonicalPath r.force
          else ⟨fs, [], false, true⟩).muts = [] := by
        split
        · exact deleteStep_dry sys ctx fs _ eLN r.relative r.canonicalPath r.force h
        · exact ⟨rfl, rfl⟩
      rw [hd.1, hd.2]
      have hl := linkStep_dry sys ctx fs (nodeNormalize (expandPath sys path0)) eLN
        r.relative r.canonicalPath r.ignoreMissing r.linkType
        (if r.force = true ∨ r.relink = true then
          deleteStep sys ctx fs (nodeNormalize (expandPath sys path0)) eLN
            r.relative r.canonicalPath r.force
          else ⟨fs, [], false, true⟩).removed h
      rw [hl.1, hl.2]
      exact ⟨rfl, rfl⟩

theorem processEntry_dry (sys : Sys) (ctx : Ctx) (defaults : LinkOptions)
    (fs : FS) (linkName : String) (target : LinkTarget) (h : ctx.dryRun = true) :
    (processEntry sys ctx defaults fs linkName target).fs = fs ∧
    (processEntry sys ctx defaults fs linkName target).muts = [] := by
  simp only [processEntry]
  repeat' split
  all_goals
    first
      | exact ⟨rfl, rfl⟩
      | exact processEntryBody_dry sys ctx _ fs _ _ h

/-- C7 (amended): dry-run purity — for any `link` payload, defaults,
and starting filesystem, a dry-run invocation of the directive handler
performs zero mutations and leaves the filesystem byte-identical.  (The
claim's second half — that a dry-run reaches the same branch decisions
as a real run — fails when the delete step's removal condition holds
for an existing non-symlink without `force`: the dry-run assumes a
removal that the real run would not perform; see the counterexample.) -/
theorem C7_dry_run_purity (sys : Sys) (ctx : Ctx) (defaults : LinkOptions)
    (fs : FS) (links : List (String × LinkTarget)) (h : ctx.dryRun = true) :
    (processLinks sys ctx defaults fs links).fs = fs ∧
    (processLinks sys ctx defaults fs links).muts = [] := by
  simp only [processLinks]
  split
  · exact ⟨rfl, rfl⟩
  · suffices hgen : ∀ (ls : List (String × LinkTarget)) (acc : StepRes),
        (ls.foldl
          (fun (acc : StepRes) kv =>
            let r := processEntry sys ctx defaults acc.fs kv.1 kv.2
            ⟨r.fs, acc.muts ++ r.muts, r.ok && acc.ok⟩) acc).fs = acc.fs ∧
        (ls.foldl
          (fun (acc : StepRes) kv =>
            let r := processEntry sys ctx defaults acc.fs kv.1 kv.2
            ⟨r.fs, acc.muts ++ r.muts, r.ok && acc.ok⟩) acc).muts = acc.muts by
      exact hgen links ⟨fs, [], true⟩
    intro ls
    induction ls with
    | nil => intro acc; exact ⟨rfl, rfl⟩
    | cons kv rest ih =>
      intro acc
      simp only [List.foldl]
      have hp := processEntry_dry sys ctx defaults acc.fs kv.1 kv.2 h
      obtain ⟨h1, h2⟩ := ih ⟨(processEntry sys ctx defaults acc.fs kv.1 kv.2).fs,
        acc.muts ++ (processEntry sys ctx defaults acc.fs kv.1 kv.2).muts,
        (processEntry sys ctx defaults acc.fs kv.1 kv.2).ok && acc.ok⟩
      rw [h1, h2]
      exact ⟨hp.1, by rw [hp.2, List.append_nil]⟩

/-- Concrete filesystem with a regular file occupying the link path. -/
def fsRegular : FS :=
  [("/home/user/.vimrc", .file 1 99),
   ("/home/user", .dir),
   ("/home/user/dotfiles", .dir),
   ("/home/user/dotfiles/vimrc", .file 1 10)]

/-- C7 counterexample: with `relink: true`, no `force`, and a regular
file at the link path, the dry-run reports success (it treats the
would-be removal as performed) while the real run on the identical
input state fails (the real delete step removes nothing without
`force`, and the link step then hits "already exists") — so dry-run
and real run do **not** reach the same branch decisions. -/
theorem C7_counterexample :
    (processEntry sysW ⟨"/home/user/dotfiles", true⟩ { relink := some true }
        fsRegular "~/.vimrc" (.bare (some "vimrc"))).ok = true ∧
    (processEntry sysW ⟨"/home/user/dotfiles", false⟩ { relink := some true }
        fsRegular "~/.vimrc" (.bare (some "vimrc"))).ok = false := by
  refine ⟨by decide, by decide⟩

theorem C7_witness :
    ((⟨"/home/user/dotfiles", true⟩ : Ctx).dryRun = true) ∧
    ((processLinks sysW ⟨"/home/user/dotfiles", true⟩ { relink := some true }
        fsRegular [("~/.vimrc", .bare (some "vimrc"))]).fs = fsRegular ∧
      (processLinks sysW ⟨"/home/user/dotfiles", true⟩ { relink := some true }
        fsRegular [("~/.vimrc", .bare (some "vimrc"))]).muts = []) :=
  ⟨rfl, C7_dry_run_purity sysW ⟨"/home/user/dotfiles", true⟩ { relink := some true }
    fsRegular [("~/.vimrc", .bare (some "vimrc"))] rfl⟩

/-! ### C1: sub-lemmas -/

/-- A successful real-run symlink `_link` either created the link (the
link path was free and the target existed) or found it already correct;
in both cases the target exists and the resulting filesystem records
the desired symlink at the link path. -/
theorem linkStep_symlink_ok (sys : Sys) (ctx : Ctx) (fs : FS)
    (target linkName : String) (relative canonicalPath didDelete : Bool)
    (hdry : ctx.dryRun = false)
    (hok : (linkStep sys ctx fs target linkName relative canonicalPath false
      "symlink" didDelete).ok = true) :
    existsFS sys fs (nodeJoin (baseDirectory sys ctx canonicalPath) target) = true ∧
    ((lookupFS fs (keyOf sys linkName) = none ∧
      (linkStep sys ctx fs target linkName relative canonicalPath false
        "symlink" didDelete).fs =
        insertFS fs (nodeResolve sys.cwd (expandPath sys linkName))
          (.symlink (if relative then
            relativePath sys (nodeJoin (baseDirectory sys ctx canonicalPath) target)
              (nodeResolve sys.cwd (expandPath sys linkName))
          else nodeJoin (baseDirectory sys ctx canonicalPath) target))) ∨
     (lookupFS fs (keyOf sys linkName) = some
        (.symlink (if relative then
          relativePath sys (nodeJoin (baseDirectory sys ctx canonicalPath) target)
            (nodeResolve sys.cwd (expandPath sys linkName))
        else nodeJoin (baseDirectory sys ctx canonicalPath) target)) ∧
      (linkStep sys ctx fs target linkName relative canonicalPath false
        "symlink" didDelete).fs = fs)) := by
  simp only [linkStep] at hok ⊢
  by_cases hcr : (¬ lexistsFS sys fs linkName = true ∨
      (ctx.dryRun = true ∧ didDelete = true)) ∧
      (false = true ∨ existsFS sys fs
        (nodeJoin (baseDirectory sys ctx canonicalPath) target) = true)
  · rw [if_pos hcr] at hok ⊢
    rw [hdry] at hcr
    have hlex : lexistsFS sys fs linkName = false := by
      rcases hcr.1 with h | h
      · simpa using h
      · exact absurd h.1 (by simp)
    have hex : existsFS sys fs
        (nodeJoin (baseDirectory sys ctx canonicalPath) target) = true := by
      rcases hcr.2 with h | h
      · exact absurd h (by simp)
      · exact h
    refine ⟨hex, Or.inl ⟨?_, ?_⟩⟩
    · simpa [lexistsFS, Option.isSome_iff_exists] using hlex
    · rw [if_neg (by simp [hdry])] at hok ⊢
      rw [if_pos trivial]
  · rw [if_neg hcr] at hok ⊢
    by_cases hex : existsFS sys fs
        (nodeJoin (baseDirectory sys ctx canonicalPath) target) = true
    · rw [if_neg (by simp [hex])] at hok ⊢
      refine ⟨hex, ?_⟩
      by_cases hil : isLinkFS sys fs linkName = true
      · rw [if_pos hil] at hok ⊢
        rw [if_pos trivial] at hok ⊢
        by_cases heq : linkTargetFS sys fs linkName = some
            (if relative = true then
              relativePath sys (nodeJoin (baseDirectory sys ctx canonicalPath) target)
                (nodeResolve sys.cwd (expandPath sys linkName))
            else nodeJoin (baseDirectory sys ctx canonicalPath) target)
        · rw [if_pos heq] at hok ⊢
          right
          constructor
          · simp only [linkTargetFS] at heq
            simp only [isLinkFS] at hil
            cases hlk : lookupFS fs (keyOf sys linkName) with
            | none => rw [hlk] at hil; simp at hil
            | some e =>
              rw [hlk] at heq hil
              cases e with
              | symlink t =>
                simp only [Option.some.injEq] at heq
                rw [heq]
              | file d i => simp at hil
              | dir => simp at hil
          · rfl
        · rw [if_neg heq] at hok
          simp at hok
      · rw [if_neg hil] at hok ⊢
        rw [if_neg (by decide)] at hok
        simp at hok
    · rw [if_pos (by simp [hex])] at hok
      simp at hok

/-- The delete step is a no-op (success, nothing removed) when the
link path already holds the desired symlink. -/
theorem deleteStep_correct_link_noop (sys : Sys) (ctx : Ctx) (fs : FS)
    (target path : String) (relative canonicalPath force : Bool)
    (hdry : ctx.dryRun = false)
    (hlink : lookupFS fs (keyOf sys path) = some
      (.symlink (if relative then
        relativePath sys (nodeJoin (baseDirectory sys ctx canonicalPath) target)
          (nodeResolve sys.cwd (expandPath sys path))
      else nodeJoin (baseDirectory sys ctx canonicalPath) target))) :
    deleteStep sys ctx fs target path relative canonicalPath force =
      ⟨fs, [], false, true⟩ := by
  have hil : isLinkFS sys fs path = true := by
    simp [isLinkFS, hlink]
  have hlt : linkTargetFS sys fs path = some
      (if relative then
        relativePath sys (nodeJoin (baseDirectory sys ctx canonicalPath) target)
          (nodeResolve sys.cwd (expandPath sys path))
      else nodeJoin (baseDirectory sys ctx canonicalPath) target) := by
    simp [linkTargetFS, hlink]
  simp only [deleteStep]
  rw [if_neg (by simp [hil])]
  rw [if_neg ?hsr]
  case hsr =>
    simp only [not_or]
    constructor
    · intro hcon
      exact hcon.2 hlt
    · intro hcon
      exact hcon.2 hil

/-- The link step is a success with no mutation when the link path
already holds the desired symlink and the target exists. -/
theorem linkStep_correct_link_noop (sys : Sys) (ctx : Ctx) (fs : FS)
    (target linkName : String)
    (relative canonicalPath ignoreMissing didDelete : Bool)
    (hdry : ctx.dryRun = false)
    (hlink : lookupFS fs (keyOf sys linkName) = some
      (.symlink (if relative then
        relativePath sys (nodeJoin (baseDirectory sys ctx canonicalPath) target)
          (nodeResolve sys.cwd (expandPath sys linkName))
      else nodeJoin (baseDirectory sys ctx canonicalPath) target)))
    (hex : existsFS sys fs
      (nodeJoin (baseDirectory sys ctx canonicalPath) target) = true) :
    linkStep sys ctx fs target linkName relative canonicalPath ignoreMissing
      "symlink" didDelete = ⟨fs, [], true⟩ := by
  have hlex : lexistsFS sys fs linkName = true := by
    simp [lexistsFS, hlink]
  have hil : isLinkFS sys fs linkName = true := by
    simp [isLinkFS, hlink]
  have hlt : linkTargetFS sys fs linkName = some
      (if relative then
        relativePath sys (nodeJoin (baseDirectory sys ctx canonicalPath) target)
          (nodeResolve sys.cwd (expandPath sys linkName))
      else nodeJoin (baseDirectory sys ctx canonicalPath) target) := by
    simp [linkTargetFS, hlink]
  simp only [linkStep]
  rw [if_neg (by simp [hlex, hdry])]
  rw [if_neg (by simp [hex])]
  rw [if_pos hil]
  rw [if_pos trivial]
  rw [if_pos hlt]

/-- After a successful real run of the non-glob entry body (symlink
type, `create` and `ignore-missing` unset, `canonicalize` on), the
resulting filesystem records the desired symlink at the link path and
the target still exists. -/
theorem processEntryBody_ok_facts (sys : Sys) (ctx : Ctx) (r : REntry) (fs : FS)
    (eLN path0 : String)
    (hdry : ctx.dryRun = false)
    (hglob : ¬ (r.useGlob = true ∧
      hasGlobChars (nodeNormalize (expandPath sys path0)) = true))
    (him : r.ignoreMissing = false)
    (hcreate : r.create = false)
    (htype : r.linkType = "symlink")
    (hok : (processEntryBody sys ctx r fs eLN path0).ok = true) :
    lookupFS (processEntryBody sys ctx r fs eLN path0).fs (keyOf sys eLN) =
      some (.symlink (if r.relative then
        relativePath sys
          (nodeJoin (baseDirectory sys ctx r.canonicalPath)
            (nodeNormalize (expandPath sys path0)))
          (nodeResolve sys.cwd (expandPath sys eLN))
      else nodeJoin (baseDirectory sys ctx r.canonicalPath)
        (nodeNormalize (expandPath sys path0)))) ∧
    existsFS sys (processEntryBody sys ctx r fs eLN path0).fs
      (nodeJoin (baseDirectory sys ctx r.canonicalPath)
        (nodeNormalize (expandPath sys path0))) = true := by
  simp only [processEntryBody] at hok ⊢
  rw [if_neg hglob] at hok ⊢
  rw [him, htype] at hok ⊢
  simp only [hcreate, Bool.false_eq_true, if_false] at hok ⊢
  by_cases hex0 : existsFS sys fs (nodeJoin (baseDirectory sys ctx true)
      (nodeNormalize (expandPath sys path0))) = true
  · rw [if_neg (by simp [hex0])] at hok
    rw [if_neg (by simp [him, hex0])]
    by_cases hfr : (r.force = true ∨ r.relink = true)
    · rw [if_pos hfr] at hok ⊢
      simp only [Bool.true_and, Bool.and_eq_true] at hok
      have hlok := hok.2
      have hfacts := linkStep_symlink_ok sys ctx
        (deleteStep sys ctx fs (nodeNormalize (expandPath sys path0)) eLN
          r.relative r.canonicalPath r.force).fs
        (nodeNormalize (expandPath sys path0)) eLN r.relative r.canonicalPath
        (deleteStep sys ctx fs (nodeNormalize (expandPath sys path0)) eLN
          r.relative r.canonicalPath r.force).removed hdry hlok
      rcases hfacts.2 with ⟨hnone, hfs⟩ | ⟨hsome, hfs⟩
      · rw [hfs]
        constructor
        · exact lookupFS_insert_self _ _ _
        · exact existsFS_insert_fresh sys _ _ _ hnone _ hfacts.1
      · rw [hfs]
        exact ⟨hsome, hfacts.1⟩
    · rw [if_neg hfr] at hok ⊢
      simp only [Bool.true_and, Bool.and_eq_true] at hok
      have hlok : (linkStep sys ctx fs (nodeNormalize (expandPath sys path0)) eLN
          r.relative r.canonicalPath false "symlink" false).ok = true := by
        simpa using hok
      have hfacts := linkStep_symlink_ok sys ctx fs
        (nodeNormalize (expandPath sys path0)) eLN r.relative r.canonicalPath
        false hdry hlok
      rcases hfacts.2 with ⟨hnone, hfs⟩ | ⟨hsome, hfs⟩
      · rw [hfs]
        constructor
        · exact lookupFS_insert_self _ _ _
        · exact existsFS_insert_fresh sys _ _ _ hnone _ hfacts.1
      · rw [hfs]
        exact ⟨hsome, hfacts.1⟩
  · rw [if_pos (by simp [him, hex0])] at hok
    simp at hok

/-- Re-running the non-glob entry body after a successful real run
(symlink type, `create`/`ignore-missing` unset, `canonicalize` on)
performs zero mutations and succeeds, leaving the filesystem as is. -/
theorem processEntryBody_idem (sys : Sys) (ctx : Ctx) (r : REntry) (fs : FS)
    (eLN path0 : String)
    (hdry : ctx.dryRun = false)
    (hglob : ¬ (r.useGlob = true ∧
      hasGlobChars (nodeNormalize (expandPath sys path0)) = true))
    (him : r.ignoreMissing = false)
    (hcreate : r.create = false)
    (hcanon : r.canonicalPath = true)
    (htype : r.linkType = "symlink")
    (hok : (processEntryBody sys ctx r fs eLN path0).ok = true) :
    processEntryBody sys ctx r (processEntryBody sys ctx r fs eLN path0).fs
      eLN path0 = ⟨(processEntryBody sys ctx r fs eLN path0).fs, [], true⟩ := by
  obtain ⟨hlink1, hex1⟩ := processEntryBody_ok_facts sys ctx r fs eLN path0
    hdry hglob him hcreate htype hok
  generalize hF : (processEntryBody sys ctx r fs eLN path0).fs = F at hlink1 hex1
  simp only [processEntryBody]
  rw [if_neg hglob]
  simp only [hcreate, Bool.false_eq_true, if_false]
  have hexE : existsFS sys F (nodeJoin (baseDirectory sys ctx true)
      (nodeNormalize (expandPath sys path0))) = true := by
    have hex1' := hex1
    rw [hcanon] at hex1'
    exact hex1' 
  rw [if_neg (by simp [him, hexE])]
  have hdel : (if r.force = true ∨ r.relink = true then
      deleteStep sys ctx F (nodeNormalize (expandPath sys path0)) eLN
        r.relative r.canonicalPath r.force
      else ⟨F, [], false, true⟩) = ⟨F, [], false, true⟩ := by
    split
    · exact deleteStep_correct_link_noop sys ctx F _ eLN r.relative
        r.canonicalPath r.force hdry hlink1
    · rfl
  rw [hdel]
  dsimp only
  have hls := linkStep_correct_link_noop sys ctx F
    (nodeNormalize (expandPath sys path0)) eLN r.relative r.canonicalPath
    r.ignoreMissing false hdry hlink1 hex1
  rw [htype, hls]
  simp

/-- C1 (amended): for a non-glob symlink-type LinkSpec entry with
`create` and `ignore-missing` unset and `canonicalize` on (the
default), if a real run of the entry reports success then running the
entry again on the resulting filesystem performs zero filesystem
mutations, reports success, and leaves the filesystem unchanged. -/
theorem C1_idempotent_after_success (sys : Sys) (ctx : Ctx)
    (defaults : LinkOptions) (fs : FS) (linkName : String) (target : LinkTarget)
    (r : REntry)
    (hr : resolveOpts defaults (expandVars sys.env (normslash linkName)) target =
      some r)
    (hdry : ctx.dryRun = false)
    (hglob : ¬ (r.useGlob = true ∧
      hasGlobChars (nodeNormalize (expandPath sys (normslash r.path))) = true))
    (him : r.ignoreMissing = false)
    (hcreate : r.create = false)
    (hcanon : r.canonicalPath = true)
    (htype : r.linkType = "symlink")
    (hok : (processEntry sys ctx defaults fs linkName target).ok = true) :
    processEntry sys ctx defaults
      (processEntry sys ctx defaults fs linkName target).fs linkName target =
      ⟨(processEntry sys ctx defaults fs linkName target).fs, [], true⟩ := by
  simp only [processEntry, hr] at hok ⊢
  cases htst : r.test with
  | some t =>
    rw [htst] at hok
    dsimp only at hok ⊢
    by_cases hsh : sys.shellOk t = true
    · simp only [hsh, eq_self_iff_true, not_true, if_false] at hok ⊢
      exact processEntryBody_idem sys ctx r fs
        (expandVars sys.env (normslash linkName)) (normslash r.path)
        hdry hglob him hcreate hcanon htype hok
    · have hsh' : sys.shellOk t = false := by simpa using hsh
      simp only [hsh', Bool.false_eq_true, not_false_iff, if_true] at hok ⊢
  | none =>
    rw [htst] at hok
    dsimp only at hok ⊢
    exact processEntryBody_idem sys ctx r fs
      (expandVars sys.env (normslash linkName)) (normslash r.path)
      hdry hglob him hcreate hcanon htype hok

/-- Concrete filesystem: home and base directories and the dotfile,
with the link path still free. -/
def fsPlainHome : FS :=
  [("/home/user", .dir),
   ("/home/user/dotfiles", .dir),
   ("/home/user/dotfiles/vimrc", .file 1 10)]

/-- C1 counterexample: with target `vimrc2` absent from the base
directory, the first run already reports failure (and so does the
second), refuting the claim that for **every** LinkSpec and starting
state both runs report success. -/
theorem C1_counterexample :
    (processEntry sysW ctxW {} fsPlainHome "~/.vimrc" (.bare (some "vimrc2"))).ok
      = false ∧
    (processEntry sysW ctxW {}
      (processEntry sysW ctxW {} fsPlainHome "~/.vimrc"
        (.bare (some "vimrc2"))).fs
      "~/.vimrc" (.bare (some "vimrc2"))).ok = false := by
  refine ⟨by decide, by decide⟩

theorem C1_witness :
    (resolveOpts {} (expandVars sysW.env (normslash "~/.vimrc"))
        (.bare (some "vimrc")) = some rPlain ∧
      ctxW.dryRun = false ∧
      ¬ (rPlain.useGlob = true ∧
        hasGlobChars (nodeNormalize (expandPath sysW (normslash rPlain.path))) = true) ∧
      rPlain.ignoreMissing = false ∧ rPlain.create = false ∧
      rPlain.canonicalPath = true ∧ rPlain.linkType = "symlink" ∧
      (processEntry sysW ctxW {} fsPlainHome "~/.vimrc"
        (.bare (some "vimrc"))).ok = true) ∧
    processEntry sysW ctxW {}
      (processEntry sysW ctxW {} fsPlainHome "~/.vimrc" (.bare (some "vimrc"))).fs
      "~/.vimrc" (.bare (some "vimrc")) =
      ⟨(processEntry sysW ctxW {} fsPlainHome "~/.vimrc"
        (.bare (some "vimrc"))).fs, [], true⟩ :=
  ⟨⟨by decide, rfl, by decide, rfl, rfl, rfl, rfl, by decide⟩,
   C1_idempotent_after_success sysW ctxW {} fsPlainHome "~/.vimrc"
     (.bare (some "vimrc")) rPlain (by decide) rfl (by decide) rfl rfl rfl rfl
     (by decide)⟩

end Dotbot
